import Mathlib

/-!
Verification of the llm-scorm course-compilation pipeline.

The definitions below are a shallow embedding of the Python sources
(scorm_builder.py, llm_generator.py) together with the components of the
repository that are only visible through their callers and tests
(the structural validator and the compatibility normalizer, which are
modelled from the design document).  Machine integers are modelled as
Nat / Int, Python dictionaries as association lists in insertion order,
and fallible code returns Except values.
-/

namespace LlmScorm

/-! ### Decimal rendering of naturals, modelling the Python str(int) call -/

/-- The character for a single decimal digit, as produced by str(int). -/
def digitCh (n : Nat) : Char := Nat.digitChar n

/-- Fuel-bounded digit expansion; with fuel at least the value itself the
fuel never runs out, since the value shrinks by a factor of ten each
step. -/
def natDigitsAux : Nat → Nat → List Char
  | 0, n => [digitCh (n % 10)]
  | f + 1, n =>
    if n < 10 then [digitCh n]
    else natDigitsAux f (n / 10) ++ [digitCh (n % 10)]

theorem natDigitsAux_congr :
    ∀ f1 f2 n, n ≤ f1 → n ≤ f2 → natDigitsAux f1 n = natDigitsAux f2 n := by
  intro f1
  induction f1 with
  | zero =>
    intro f2 n h1 _
    have : n = 0 := Nat.le_zero.mp h1
    subst this
    cases f2 with
    | zero => rfl
    | succ b => simp [natDigitsAux, digitCh]
  | succ a ih =>
    intro f2 n h1 h2
    cases f2 with
    | zero =>
      have : n = 0 := Nat.le_zero.mp h2
      subst this
      simp [natDigitsAux, digitCh]
    | succ b =>
      rw [natDigitsAux, natDigitsAux]
      by_cases h : n < 10
      · simp [h]
      · simp only [h, if_false]
        have hrec := ih b (n / 10)
          (by omega)
          (by
            have := Nat.div_le_self n 10
            omega)
        rw [hrec]

/-- The decimal digit characters of a natural number, most significant first.
This models the Python builtin str applied to a non-negative int. -/
def natDigits (n : Nat) : List Char := natDigitsAux n n

/-- The defining recurrence of the digit expansion. -/
theorem natDigits_eq (n : Nat) :
    natDigits n =
      if n < 10 then [digitCh n]
      else natDigits (n / 10) ++ [digitCh (n % 10)] := by
  rw [natDigits]
  cases hn : n with
  | zero => simp [natDigitsAux, digitCh]
  | succ m =>
    rw [natDigitsAux]
    by_cases h : m + 1 < 10
    · simp [h]
    · simp only [h, if_false]
      rw [natDigits]
      rw [natDigitsAux_congr m ((m + 1) / 10) ((m + 1) / 10)
        (by omega) (Nat.le_refl _)]

/-- Decimal rendering of a natural number: the Python str builtin. -/
def natStr (n : Nat) : String := String.mk (natDigits n)

/-- Decimal rendering of an integer: the Python str builtin. -/
def intStr (i : Int) : String :=
  if i < 0 then String.mk ('-' :: natDigits i.natAbs) else natStr i.toNat

theorem digitCh_isDigit (n : Nat) (h : n < 10) : (digitCh n).isDigit = true := by
  have : ∀ m : Fin 10, (digitCh m.val).isDigit = true := by decide
  exact this ⟨n, h⟩

theorem digitCh_toNat (n : Nat) (h : n < 10) : (digitCh n).toNat = 48 + n := by
  have : ∀ m : Fin 10, (digitCh m.val).toNat = 48 + m.val := by decide
  exact this ⟨n, h⟩

theorem natDigits_all_digit :
    ∀ n, ∀ c ∈ natDigits n, c.isDigit = true := by
  intro n
  induction n using Nat.strong_induction_on with
  | _ n ih =>
    intro c hc
    rw [natDigits_eq] at hc
    by_cases h : n < 10
    · rw [if_pos h] at hc
      simp only [List.mem_singleton] at hc
      exact hc ▸ digitCh_isDigit n h
    · rw [if_neg h] at hc
      rw [List.mem_append] at hc
      rcases hc with hc | hc
      · exact ih (n / 10)
          (Nat.div_lt_self (by omega) (by omega)) c hc
      · simp only [List.mem_singleton] at hc
        exact hc ▸ digitCh_isDigit (n % 10) (Nat.mod_lt n (by omega))

theorem natDigits_ne_nil (n : Nat) : natDigits n ≠ [] := by
  rw [natDigits_eq]
  by_cases h : n < 10
  · simp [h]
  · rw [if_neg h]
    intro habs
    exact absurd (List.append_eq_nil.mp habs).2 (by simp)

/-- Folding the digit characters back into the value they denote. -/
def digitsVal (acc : Nat) (l : List Char) : Nat :=
  l.foldl (fun a c => 10 * a + (c.toNat - 48)) acc

theorem digitsVal_natDigits :
    ∀ n acc, digitsVal acc (natDigits n) = acc * 10 ^ (natDigits n).length + n := by
  intro n
  induction n using Nat.strong_induction_on with
  | _ n ih =>
    intro acc
    rw [natDigits_eq]
    by_cases h : n < 10
    · rw [if_pos h]
      simp [digitsVal, digitCh_toNat n h]
      omega
    · rw [if_neg h]
      have hrec := ih (n / 10) (Nat.div_lt_self (by omega) (by omega)) acc
      simp only [digitsVal, List.foldl_append, List.foldl_cons, List.foldl_nil,
        List.length_append, List.length_singleton]
      simp only [digitsVal] at hrec
      rw [hrec, digitCh_toNat (n % 10) (Nat.mod_lt n (by omega))]
      have hmod : 48 + n % 10 - 48 = n % 10 := by omega
      rw [hmod, pow_succ]
      have := Nat.div_add_mod n 10
      ring_nf
      omega

theorem natDigits_inj {m n : Nat} (h : natDigits m = natDigits n) : m = n := by
  have hm := digitsVal_natDigits m 0
  have hn := digitsVal_natDigits n 0
  rw [h] at hm
  simp only [Nat.zero_mul] at hm hn
  omega

theorem natStr_inj {m n : Nat} (h : natStr m = natStr n) : m = n := by
  apply natDigits_inj
  have : (natStr m).data = (natStr n).data := by rw [h]
  simpa [natStr] using this

/-! ### A model of Python untyped JSON values -/

/-- Python values as decoded from JSON by json.loads: None, bool, int,
str, list and dict (association list in insertion order).  Numbers are
modelled as integers. -/
inductive Json where
  | null
  | bool (b : Bool)
  | num (n : Int)
  | str (s : String)
  | arr (items : List Json)
  | obj (fields : List (String × Json))
deriving Inhabited

mutual

/-- Structural equality of decoded values, modelling the Python equality
used by the in operator on lists. -/
def Json.beq : Json → Json → Bool
  | .null, .null => true
  | .bool a, .bool b => a == b
  | .num a, .num b => a == b
  | .str a, .str b => a == b
  | .arr a, .arr b => Json.beqList a b
  | .obj a, .obj b => Json.beqFields a b
  | _, _ => false

def Json.beqList : List Json → List Json → Bool
  | [], [] => true
  | x :: xs, y :: ys => Json.beq x y && Json.beqList xs ys
  | _, _ => false

def Json.beqFields : List (String × Json) → List (String × Json) → Bool
  | [], [] => true
  | (k1, v1) :: xs, (k2, v2) :: ys =>
    k1 == k2 && Json.beq v1 v2 && Json.beqFields xs ys
  | _, _ => false

end

instance : BEq Json := ⟨Json.beq⟩

/-- Last binding of a key in a dict, modelling Python dict lookup where a
later duplicate key overwrites an earlier one. -/
def Json.getKey? : Json → String → Option Json
  | .obj fields, k => (fields.reverse.find? (fun p => p.1 == k)).map (·.2)
  | _, _ => none

/-- Membership test for a key in a dict. -/
def Json.hasKey (j : Json) (k : String) : Bool :=
  match j with
  | .obj fields => fields.any (fun p => p.1 == k)
  | _ => false

/-! ### Course data model used by SCORMBuilder.build

The builder reads course.get("modules", []), mod.get("sections", []),
sec.get("scos", []), the optional titles, course.get("final_test", []) and
course.get("settings", {}).get("passing_score", 80).  Fields read with a
default are modelled as Option / plain lists. -/

/-- One unit ("SCO"): title plus the screen and knowledge-check payloads
passed opaquely to the HTML renderer. -/
structure CSco where
  title : Option String
  screens : List Json
  knowledge_check : List Json
deriving Inhabited

structure CSection where
  title : Option String
  scos : List CSco
deriving Inhabited

structure CModule where
  title : Option String
  sections : List CSection
deriving Inhabited

structure CSettings where
  passing_score : Option Int
deriving DecidableEq, Inhabited

structure CCourse where
  title : Option String
  language : Option String
  settings : Option CSettings
  modules : List CModule
  final_test : List Json
deriving Inhabited

/-- The external presentation renderer (_render_sco_html delegating to the
jinja template): opaque text producer over (course, sco, filename). -/
def RenderFn : Type := CCourse → CSco → String → String

/-- f"sco_{m_idx}_{s_idx}_{u_idx}.html" -/
def scoFilename (m s u : Nat) : String :=
  "sco_" ++ natStr m ++ "_" ++ natStr s ++ "_" ++ natStr u ++ ".html"

/-- An entry of sec_data["scos"] in build. -/
structure ScoEntry where
  id : String
  res_id : String
  title : String
deriving DecidableEq, Inhabited

/-- An entry of the resources list in build: {"res_id": ..., "href": ...}. -/
structure ResEntry where
  res_id : String
  href : String
deriving DecidableEq, Inhabited

structure SecData where
  title : String
  scos : List ScoEntry
deriving DecidableEq, Inhabited

structure ModData where
  title : String
  sections : List SecData
deriving DecidableEq, Inhabited

/-- A node of organizations_tree: either a module entry or the final-test
entry flagged is_final. -/
inductive OrgEntry where
  | mod (m : ModData)
  | fin (title : String) (id : String) (res_id : String)
deriving DecidableEq, Inhabited

/-- Inner loop of build over sec.get("scos", []): u is the enumerate index,
c the running sco_index.  Returns the final counter, the sec_data scos,
the resource entries and the generated (filename, html) files, in order. -/
def compileScos (render : RenderFn) (course : CCourse) (mIdx sIdx : Nat) :
    List CSco → Nat → Nat →
    Nat × List ScoEntry × List ResEntry × List (String × String)
  | [], _, c => (c, [], [], [])
  | sco :: rest, u, c =>
    let c1 := c + 1
    let filename := scoFilename mIdx sIdx u
    let identifier := "ITEM_" ++ natStr c1
    let resId := "RES_" ++ natStr c1
    let html := render course sco filename
    let r := compileScos render course mIdx sIdx rest (u + 1) c1
    (r.1, ⟨identifier, resId, sco.title.getD ("Урок " ++ natStr c1)⟩ :: r.2.1,
      ⟨resId, filename⟩ :: r.2.2.1, (filename, html) :: r.2.2.2)

/-- Middle loop of build over mod.get("sections", []). -/
def compileSections (render : RenderFn) (course : CCourse) (mIdx : Nat) :
    List CSection → Nat → Nat →
    Nat × List SecData × List ResEntry × List (String × String)
  | [], _, c => (c, [], [], [])
  | sec :: rest, s, c =>
    let r1 := compileScos render course mIdx s sec.scos 0 c
    let secTitle := sec.title.getD ("Раздел " ++ natStr (s + 1))
    let r2 := compileSections render course mIdx rest (s + 1) r1.1
    (r2.1, ⟨secTitle, r1.2.1⟩ :: r2.2.1, r1.2.2.1 ++ r2.2.2.1,
      r1.2.2.2 ++ r2.2.2.2)

/-- Outer loop of build over course.get("modules", []). -/
def compileModules (render : RenderFn) (course : CCourse) :
    List CModule → Nat → Nat →
    Nat × List ModData × List ResEntry × List (String × String)
  | [], _, c => (c, [], [], [])
  | md :: rest, m, c =>
    let r1 := compileSections render course m md.sections 0 c
    let modTitle := md.title.getD ("Модуль " ++ natStr (m + 1))
    let r2 := compileModules render course rest (m + 1) r1.1
    (r2.1, ⟨modTitle, r1.2.1⟩ :: r2.2.1, r1.2.2.1 ++ r2.2.2.1,
      r1.2.2.2 ++ r2.2.2.2)

/-- Total number of leaf units over all modules and sections. -/
def totalScos (course : CCourse) : Nat :=
  (course.modules.map
    (fun m => (m.sections.map (fun s => s.scos.length)).sum)).sum

/-- The synthetic sco dict built for the final test in build. -/
def finalTestSco (course : CCourse) : CSco :=
  { title := some "Итоговое тестирование", screens := [],
    knowledge_check := course.final_test }

/-! ### Slugify, from SCORMBuilder._slugify -/

/-- The transliteration table of _slugify for lowercase Cyrillic letters. -/
def translitChar : Char → Option String
  | 'а' => some "a" | 'б' => some "b" | 'в' => some "v" | 'г' => some "g"
  | 'д' => some "d" | 'е' => some "e" | 'ё' => some "yo" | 'ж' => some "zh"
  | 'з' => some "z" | 'и' => some "i" | 'й' => some "j" | 'к' => some "k"
  | 'л' => some "l" | 'м' => some "m" | 'н' => some "n" | 'о' => some "o"
  | 'п' => some "p" | 'р' => some "r" | 'с' => some "s" | 'т' => some "t"
  | 'у' => some "u" | 'ф' => some "f" | 'х' => some "kh" | 'ц' => some "ts"
  | 'ч' => some "ch" | 'ш' => some "sh" | 'щ' => some "shch" | 'ъ' => some ""
  | 'ы' => some "y" | 'ь' => some "" | 'э' => some "e" | 'ю' => some "yu"
  | 'я' => some "ya"
  | _ => none

/-- Python str.lower for the character ranges that matter to _slugify:
ASCII letters and the Russian alphabet (А-Я and Ё). -/
def lowerCh (c : Char) : Char :=
  if 'A' ≤ c ∧ c ≤ 'Z' then Char.ofNat (c.toNat + 32)
  else if 'А' ≤ c ∧ c ≤ 'Я' then Char.ofNat (c.toNat + 32)
  else if c = 'Ё' then 'ё'
  else c

/-- The per-character case of the comprehension in _slugify:
kept ASCII alphanumerics and hyphen/underscore map through the
transliteration table (identity for them), every non-ASCII character maps
through the table as well, space and tab map to a hyphen, and any other
ASCII character is dropped. -/
def isAsciiCh (c : Char) : Bool := c.toNat ≤ 127

def slugifyChar (c : Char) : String :=
  if (isAsciiCh c ∧ (c.isAlphanum ∨ c = '-' ∨ c = '_')) ∨ ¬ isAsciiCh c then
    (translitChar c).getD (String.mk [c])
  else if c = ' ' ∨ c = '\t' then "-"
  else ""

/-- Drop leading and trailing hyphens: Python str.strip("-"). -/
def stripHyphens (s : String) : String :=
  String.mk (((s.data.dropWhile (· == '-')).reverse.dropWhile (· == '-')).reverse)

/-- SCORMBuilder._slugify: lowercase, transliterate, collapse one level of
double hyphens, strip hyphens, with fallback "course". -/
def slugify (text : String) : String :=
  let mapped := String.join (text.data.map (fun c => slugifyChar (lowerCh c)))
  let collapsed := mapped.replace "--" "-"
  let slug := stripHyphens collapsed
  if slug.isEmpty then "course" else slug

/-! ### XML model for the manifest (xml.etree.ElementTree) -/

/-- An XML element: tag, attributes in assignment order, optional text and
children in append order. -/
inductive Xml where
  | el (tag : String) (attrs : List (String × String)) (text : Option String)
       (children : List Xml)

def Xml.tag : Xml → String
  | .el t _ _ _ => t

def Xml.attrs : Xml → List (String × String)
  | .el _ a _ _ => a

def Xml.text : Xml → Option String
  | .el _ _ tx _ => tx

def Xml.children : Xml → List Xml
  | .el _ _ _ cs => cs

/-- Value of an attribute, if set. -/
def Xml.attr? (x : Xml) (k : String) : Option String :=
  (x.attrs.find? (fun p => p.1 == k)).map (·.2)

/-! ### Manifest generation, from SCORMBuilder._generate_manifest -/

/-- The mastery score string: str(settings.get("passing_score", 80)). -/
def masteryVal (course : CCourse) : String :=
  intStr (((course.settings.getD ⟨none⟩).passing_score).getD 80)

/-- The item element for one sco of a section. -/
def scoItemXml (mastery : String) (e : ScoEntry) : Xml :=
  .el "item"
    [("identifier", e.id), ("identifierref", e.res_id), ("isvisible", "true")]
    none
    [.el "title" [] (some e.title) [],
     .el "adlcp:masteryscore" [] (some mastery) []]

/-- The item element for one section of a module. -/
def secItemXml (mastery : String) (mIdx sIdx : Nat) (sec : SecData) : Xml :=
  .el "item"
    [("identifier", "MOD_" ++ natStr mIdx ++ "_SEC_" ++ natStr sIdx),
     ("isvisible", "true")]
    none
    (.el "title" [] (some sec.title) [] :: sec.scos.map (scoItemXml mastery))

/-- The item elements of one organizations_tree entry: a module item with
nested section items, or the flat final-test item. -/
def orgEntryXml (mastery : String) (mIdx : Nat) : OrgEntry → Xml
  | .fin t i r =>
    .el "item"
      [("identifier", i), ("identifierref", r), ("isvisible", "true")]
      none
      [.el "title" [] (some t) [],
       .el "adlcp:masteryscore" [] (some mastery) []]
  | .mod md =>
    .el "item"
      [("identifier", "MOD_" ++ natStr mIdx), ("isvisible", "true")]
      none
      (.el "title" [] (some md.title) [] ::
        (md.sections.enum.map (fun p => secItemXml mastery mIdx p.1 p.2)))

/-- The item list of the organization element, enumerating org_tree. -/
def orgItemsXml (mastery : String) : Nat → List OrgEntry → List Xml
  | _, [] => []
  | mIdx, e :: rest => orgEntryXml mastery mIdx e :: orgItemsXml mastery (mIdx + 1) rest

/-- One resource element with its file children: the own content file plus
the two shared static assets. -/
def resourceXml (r : ResEntry) : Xml :=
  .el "resource"
    [("identifier", r.res_id), ("type", "webcontent"),
     ("adlcp:scormtype", "sco"), ("href", r.href)]
    none
    [.el "file" [("href", r.href)] none [],
     .el "file" [("href", "style.css")] none [],
     .el "file" [("href", "scorm_api.js")] none []]

/-- SCORMBuilder._generate_manifest as an element tree. -/
def generateManifest (course : CCourse) (orgTree : List OrgEntry)
    (resources : List ResEntry) : Xml :=
  let title := course.title.getD "Untitled Course"
  let identifier := slugify title
  let mastery := masteryVal course
  .el "manifest"
    [("identifier", identifier), ("version", "1.0"),
     ("xmlns", "http://www.imsproject.org/xsd/imscp_rootv1p1p2"),
     ("xmlns:adlcp", "http://www.adlnet.org/xsd/adlcp_rootv1p2"),
     ("xmlns:xsi", "http://www.w3.org/2001/XMLSchema-instance"),
     ("xsi:schemaLocation",
      "http://www.imsproject.org/xsd/imscp_rootv1p1p2 imscp_rootv1p1p2.xsd http://www.adlnet.org/xsd/adlcp_rootv1p2 adlcp_rootv1p2.xsd")]
    none
    [.el "metadata" [] none
       [.el "schema" [] (some "ADL SCORM") [],
        .el "schemaversion" [] (some "1.2") []],
     .el "organizations" [("default", "default-org")] none
       [.el "organization" [("identifier", "default-org")] none
          (.el "title" [] (some title) [] :: orgItemsXml mastery 0 orgTree)],
     .el "resources" [] none (resources.map resourceXml)]

/-! ### Deterministic serialization of the manifest tree -/

/-- Attribute rendering in assignment order. -/
def renderAttrs (attrs : List (String × String)) : String :=
  String.join (attrs.map (fun p => " " ++ p.1 ++ "=\"" ++ p.2 ++ "\""))

/-- Two-space indentation, as minidom.toprettyxml(indent="  "). -/
def indentStr (n : Nat) : String := String.join (List.replicate n "  ")

/-- Deterministic pretty printer for the element tree, modelling
ET.tostring piped through minidom.toprettyxml with two-space indent. -/
def renderXml : Nat → Xml → String
  | depth, .el tag attrs txt children =>
    let open_ := indentStr depth ++ "<" ++ tag ++ renderAttrs attrs
    if children.isEmpty then
      match txt with
      | none => open_ ++ "/>\n"
      | some t => open_ ++ ">" ++ t ++ "</" ++ tag ++ ">\n"
    else
      open_ ++ ">\n"
        ++ (match txt with
            | some t => indentStr (depth + 1) ++ t ++ "\n"
            | none => "")
        ++ String.join (children.attach.map
            (fun c => renderXml (depth + 1) c.1))
        ++ indentStr depth ++ "</" ++ tag ++ ">\n"
termination_by _ x => sizeOf x
decreasing_by
  have := List.sizeOf_lt_of_mem c.2
  simp only [Xml.el.sizeOf_spec]
  omega

/-- The manifest text: the XML declaration line followed by the rendered
tree. -/
def manifestText (course : CCourse) (orgTree : List OrgEntry)
    (resources : List ResEntry) : String :=
  "<?xml version=\"1.0\" encoding=\"UTF-8\"?>\n"
    ++ renderXml 0 (generateManifest course orgTree resources)

/-! ### SCORMBuilder.build -/

/-- The outcome of one build: ZIP member files in insertion order, the
manifest resources list, the organizations_tree, and the manifest tree. -/
structure BuildOut where
  files : List (String × String)
  resources : List ResEntry
  orgTree : List OrgEntry
  manifestTree : Xml

/-- The unit walk of build (the triple loop over modules, sections and
scos), starting from sco_index 0. -/
def unitWalk (render : RenderFn) (course : CCourse) :
    Nat × List ModData × List ResEntry × List (String × String) :=
  compileModules render course course.modules 0 0

/-- SCORMBuilder.build: assembles the file dict, the resources list and the
organizations tree, appends the final-test triple when final_test is
non-empty, and renders the manifest.  styleCss and scormJs are the two
static template files read from disk. -/
def build (render : RenderFn) (styleCss scormJs : String)
    (course : CCourse) : BuildOut :=
  let w := unitWalk render course
  let n := w.1
  let modsData := w.2.1
  let unitRes := w.2.2.1
  let unitFiles := w.2.2.2
  let unitTree : List OrgEntry := modsData.map OrgEntry.mod
  if course.final_test.isEmpty then
    let manifestX := generateManifest course unitTree unitRes
    { files := ("style.css", styleCss) :: ("scorm_api.js", scormJs) ::
        unitFiles ++ [("imsmanifest.xml",
          "<?xml version=\"1.0\" encoding=\"UTF-8\"?>\n" ++ renderXml 0 manifestX)],
      resources := unitRes, orgTree := unitTree, manifestTree := manifestX }
  else
    let c1 := n + 1
    let identifier := "ITEM_" ++ natStr c1
    let resId := "RES_" ++ natStr c1
    let filename := "final_test.html"
    let html := render course (finalTestSco course) filename
    let orgTree := unitTree ++ [OrgEntry.fin "Итоговое тестирование" identifier resId]
    let resources := unitRes ++ [⟨resId, filename⟩]
    let manifestX := generateManifest course orgTree resources
    { files := ("style.css", styleCss) :: ("scorm_api.js", scormJs) ::
        unitFiles ++ [(filename, html), ("imsmanifest.xml",
          "<?xml version=\"1.0\" encoding=\"UTF-8\"?>\n" ++ renderXml 0 manifestX)],
      resources := resources, orgTree := orgTree, manifestTree := manifestX }

/-- The content filenames of a build: the hrefs of the generated per-unit
and assessment files, in archive insertion order. -/
def contentFilenames (out : BuildOut) : List String :=
  (out.files.map Prod.fst).filter
    (fun f => f ≠ "style.css" ∧ f ≠ "scorm_api.js" ∧ f ≠ "imsmanifest.xml")

/-! ### Distinctness of the generated identifiers and filenames -/

theorem digits_sep_inj {sep : Char} (hsep : sep.isDigit = false) :
    ∀ {l1 l2 r1 r2 : List Char},
      (∀ c ∈ l1, c.isDigit = true) → (∀ c ∈ l2, c.isDigit = true) →
      l1 ++ sep :: r1 = l2 ++ sep :: r2 → l1 = l2 ∧ r1 = r2 := by
  intro l1
  induction l1 with
  | nil =>
    intro l2 r1 r2 _ h2 h
    cases l2 with
    | nil => simpa using h
    | cons d l2tl =>
      simp only [List.nil_append, List.cons_append, List.cons.injEq] at h
      exact absurd (h.1 ▸ h2 d (by simp)) (by simp [hsep])
  | cons c l1tl ih =>
    intro l2 r1 r2 h1 h2 h
    cases l2 with
    | nil =>
      simp only [List.nil_append, List.cons_append, List.cons.injEq] at h
      exact absurd (h.1 ▸ h1 c (by simp)) (by simp [hsep])
    | cons d l2tl =>
      simp only [List.cons_append, List.cons.injEq] at h
      obtain ⟨rfl, htl⟩ := h
      obtain ⟨he, hr⟩ := ih (fun x hx => h1 x (by simp [hx]))
        (fun x hx => h2 x (by simp [hx])) htl
      exact ⟨by rw [he], hr⟩

theorem natStr_data (n : Nat) : (natStr n).data = natDigits n := rfl

theorem scoFilename_data (m s u : Nat) :
    (scoFilename m s u).data =
      's' :: 'c' :: 'o' :: '_' ::
        (natDigits m ++ '_' :: (natDigits s ++ '_' ::
          (natDigits u ++ ('.' :: ['h', 't', 'm', 'l'])))) := by
  simp [scoFilename, String.data_append, natStr_data]

theorem scoFilename_inj {m s u m' s' u' : Nat}
    (h : scoFilename m s u = scoFilename m' s' u') :
    m = m' ∧ s = s' ∧ u = u' := by
  have hd : (scoFilename m s u).data = (scoFilename m' s' u').data := by rw [h]
  rw [scoFilename_data, scoFilename_data] at hd
  simp only [List.cons.injEq, true_and] at hd
  obtain ⟨hm, hd1⟩ := digits_sep_inj (by decide)
    (natDigits_all_digit m) (natDigits_all_digit m') hd
  obtain ⟨hs, hd2⟩ := digits_sep_inj (by decide)
    (natDigits_all_digit s) (natDigits_all_digit s') hd1
  obtain ⟨hu, -⟩ := digits_sep_inj (by decide)
    (natDigits_all_digit u) (natDigits_all_digit u') hd2
  exact ⟨natDigits_inj hm, natDigits_inj hs, natDigits_inj hu⟩

theorem prefix_natStr_inj {p : String} {m n : Nat}
    (h : p ++ natStr m = p ++ natStr n) : m = n := by
  have hd : (p ++ natStr m).data = (p ++ natStr n).data := by rw [h]
  simp only [String.data_append] at hd
  exact natDigits_inj (List.append_cancel_left hd)

theorem scoFilename_ne_final (m s u : Nat) :
    scoFilename m s u ≠ "final_test.html" := by
  intro h
  have hd := congrArg String.data h
  rw [scoFilename_data] at hd
  have : ("final_test.html").data =
      ['f', 'i', 'n', 'a', 'l', '_', 't', 'e', 's', 't', '.', 'h', 't', 'm', 'l'] := rfl
  rw [this] at hd
  exact absurd (List.head_eq_of_cons_eq hd) (by decide)

theorem scoFilename_ne_style (m s u : Nat) :
    scoFilename m s u ≠ "style.css" := by
  intro h
  have hd := congrArg String.data h
  rw [scoFilename_data] at hd
  have : ("style.css").data = ['s', 't', 'y', 'l', 'e', '.', 'c', 's', 's'] := rfl
  rw [this] at hd
  simp only [List.cons.injEq] at hd
  exact absurd hd.2.1 (by decide)

theorem scoFilename_ne_js (m s u : Nat) :
    scoFilename m s u ≠ "scorm_api.js" := by
  intro h
  have hd := congrArg String.data h
  rw [scoFilename_data] at hd
  have : ("scorm_api.js").data =
      ['s', 'c', 'o', 'r', 'm', '_', 'a', 'p', 'i', '.', 'j', 's'] := rfl
  rw [this] at hd
  simp only [List.cons.injEq] at hd
  exact absurd hd.2.2.2.1 (by decide)

theorem scoFilename_ne_manifest (m s u : Nat) :
    scoFilename m s u ≠ "imsmanifest.xml" := by
  intro h
  have hd := congrArg String.data h
  rw [scoFilename_data] at hd
  have : ("imsmanifest.xml").data =
      ['i', 'm', 's', 'm', 'a', 'n', 'i', 'f', 'e', 's', 't', '.', 'x', 'm', 'l'] := rfl
  rw [this] at hd
  exact absurd (List.head_eq_of_cons_eq hd) (by decide)

/-! ### Characterization of the unit walk -/

/-- The number of scos in a list of sections. -/
def secsCount (secs : List CSection) : Nat := (secs.map (fun s => s.scos.length)).sum

/-- The number of scos in a list of modules. -/
def modsCount (mods : List CModule) : Nat := (mods.map (fun m => secsCount m.sections)).sum

/-- The content filenames of the sections of module mIdx, sections numbered
from s0. -/
def secsFilenames (mIdx : Nat) : Nat → List CSection → List String
  | _, [] => []
  | s, sec :: rest =>
    (List.range' 0 sec.scos.length).map (scoFilename mIdx s)
      ++ secsFilenames mIdx (s + 1) rest

/-- The content filenames of modules numbered from m0. -/
def modsFilenames : Nat → List CModule → List String
  | _, [] => []
  | m, md :: rest => secsFilenames m 0 md.sections ++ modsFilenames (m + 1) rest

theorem compileScos_counter (render : RenderFn) (course : CCourse)
    (mIdx sIdx : Nat) :
    ∀ (l : List CSco) (u c : Nat),
      (compileScos render course mIdx sIdx l u c).1 = c + l.length := by
  intro l
  induction l with
  | nil => intro u c; simp [compileScos]
  | cons sco rest ih =>
    intro u c
    simp only [compileScos, List.length_cons]
    rw [ih]
    omega

theorem compileScos_res_ids (render : RenderFn) (course : CCourse)
    (mIdx sIdx : Nat) :
    ∀ (l : List CSco) (u c : Nat),
      (compileScos render course mIdx sIdx l u c).2.2.1.map ResEntry.res_id =
        (List.range' (c + 1) l.length).map (fun i => "RES_" ++ natStr i) := by
  intro l
  induction l with
  | nil => intro u c; simp [compileScos]
  | cons sco rest ih =>
    intro u c
    simp only [compileScos, List.map_cons, List.length_cons]
    rw [ih, List.range'_succ]
    simp

theorem compileScos_hrefs (render : RenderFn) (course : CCourse)
    (mIdx sIdx : Nat) :
    ∀ (l : List CSco) (u c : Nat),
      (compileScos render course mIdx sIdx l u c).2.2.1.map ResEntry.href =
        (List.range' u l.length).map (scoFilename mIdx sIdx) := by
  intro l
  induction l with
  | nil => intro u c; simp [compileScos]
  | cons sco rest ih =>
    intro u c
    simp only [compileScos, List.map_cons, List.length_cons]
    rw [ih, List.range'_succ]
    simp

theorem compileScos_file_keys (render : RenderFn) (course : CCourse)
    (mIdx sIdx : Nat) :
    ∀ (l : List CSco) (u c : Nat),
      (compileScos render course mIdx sIdx l u c).2.2.2.map Prod.fst =
        (compileScos render course mIdx sIdx l u c).2.2.1.map ResEntry.href := by
  intro l
  induction l with
  | nil => intro u c; simp [compileScos]
  | cons sco rest ih =>
    intro u c
    simp only [compileScos, List.map_cons]
    rw [ih]

theorem compileSections_counter (render : RenderFn) (course : CCourse)
    (mIdx : Nat) :
    ∀ (secs : List CSection) (s c : Nat),
      (compileSections render course mIdx secs s c).1 = c + secsCount secs := by
  intro secs
  induction secs with
  | nil => intro s c; simp [compileSections, secsCount]
  | cons sec rest ih =>
    intro s c
    simp only [compileSections]
    rw [ih, compileScos_counter]
    simp [secsCount]
    omega

theorem compileSections_res_ids (render : RenderFn) (course : CCourse)
    (mIdx : Nat) :
    ∀ (secs : List CSection) (s c : Nat),
      (compileSections render course mIdx secs s c).2.2.1.map ResEntry.res_id =
        (List.range' (c + 1) (secsCount secs)).map (fun i => "RES_" ++ natStr i) := by
  intro secs
  induction secs with
  | nil => intro s c; simp [compileSections, secsCount]
  | cons sec rest ih =>
    intro s c
    simp only [compileSections, List.map_append]
    rw [ih, compileScos_res_ids, compileScos_counter]
    have : List.range' (c + 1) sec.scos.length ++
        List.range' (c + sec.scos.length + 1) (secsCount rest) =
        List.range' (c + 1) (sec.scos.length + secsCount rest) := by
      have := List.range'_append (c + 1) sec.scos.length (secsCount rest) 1
      simpa [Nat.add_comm, Nat.add_assoc, Nat.add_left_comm] using this
    rw [← List.map_append, this]
    simp [secsCount]

theorem compileSections_hrefs (render : RenderFn) (course : CCourse)
    (mIdx : Nat) :
    ∀ (secs : List CSection) (s c : Nat),
      (compileSections render course mIdx secs s c).2.2.1.map ResEntry.href =
        secsFilenames mIdx s secs := by
  intro secs
  induction secs with
  | nil => intro s c; simp [compileSections, secsFilenames]
  | cons sec rest ih =>
    intro s c
    simp only [compileSections, List.map_append, secsFilenames]
    rw [ih, compileScos_hrefs]

theorem compileSections_file_keys (render : RenderFn) (course : CCourse)
    (mIdx : Nat) :
    ∀ (secs : List CSection) (s c : Nat),
      (compileSections render course mIdx secs s c).2.2.2.map Prod.fst =
        (compileSections render course mIdx secs s c).2.2.1.map ResEntry.href := by
  intro secs
  induction secs with
  | nil => intro s c; simp [compileSections]
  | cons sec rest ih =>
    intro s c
    simp only [compileSections, List.map_append]
    rw [ih, compileScos_file_keys]

theorem compileModules_counter (render : RenderFn) (course : CCourse) :
    ∀ (mods : List CModule) (m c : Nat),
      (compileModules render course mods m c).1 = c + modsCount mods := by
  intro mods
  induction mods with
  | nil => intro m c; simp [compileModules, modsCount]
  | cons md rest ih =>
    intro m c
    simp only [compileModules]
    rw [ih, compileSections_counter]
    simp [modsCount]
    omega

theorem compileModules_res_ids (render : RenderFn) (course : CCourse) :
    ∀ (mods : List CModule) (m c : Nat),
      (compileModules render course mods m c).2.2.1.map ResEntry.res_id =
        (List.range' (c + 1) (modsCount mods)).map (fun i => "RES_" ++ natStr i) := by
  intro mods
  induction mods with
  | nil => intro m c; simp [compileModules, modsCount]
  | cons md rest ih =>
    intro m c
    simp only [compileModules, List.map_append]
    rw [ih, compileSections_res_ids, compileSections_counter]
    have : List.range' (c + 1) (secsCount md.sections) ++
        List.range' (c + secsCount md.sections + 1) (modsCount rest) =
        List.range' (c + 1) (secsCount md.sections + modsCount rest) := by
      have := List.range'_append (c + 1) (secsCount md.sections) (modsCount rest) 1
      simpa [Nat.add_comm, Nat.add_assoc, Nat.add_left_comm] using this
    rw [← List.map_append, this]
    simp [modsCount]

theorem compileModules_hrefs (render : RenderFn) (course : CCourse) :
    ∀ (mods : List CModule) (m c : Nat),
      (compileModules render course mods m c).2.2.1.map ResEntry.href =
        modsFilenames m mods := by
  intro mods
  induction mods with
  | nil => intro m c; simp [compileModules, modsFilenames]
  | cons md rest ih =>
    intro m c
    simp only [compileModules, List.map_append, modsFilenames]
    rw [ih, compileSections_hrefs]

theorem compileModules_file_keys (render : RenderFn) (course : CCourse) :
    ∀ (mods : List CModule) (m c : Nat),
      (compileModules render course mods m c).2.2.2.map Prod.fst =
        (compileModules render course mods m c).2.2.1.map ResEntry.href := by
  intro mods
  induction mods with
  | nil => intro m c; simp [compileModules]
  | cons md rest ih =>
    intro m c
    simp only [compileModules, List.map_append]
    rw [ih, compileSections_file_keys]

theorem totalScos_eq_modsCount (course : CCourse) :
    totalScos course = modsCount course.modules := rfl

theorem res_id_map_nodup (a n : Nat) :
    ((List.range' a n).map (fun i => "RES_" ++ natStr i)).Nodup := by
  apply List.Nodup.map
  · intro i j h
    exact prefix_natStr_inj h
  · exact List.nodup_range' _ _

theorem mem_secsFilenames {mIdx : Nat} :
    ∀ {secs : List CSection} {s0 : Nat} {x : String},
      x ∈ secsFilenames mIdx s0 secs →
      ∃ s u, s0 ≤ s ∧ x = scoFilename mIdx s u := by
  intro secs
  induction secs with
  | nil => intro s0 x h; simp [secsFilenames] at h
  | cons sec rest ih =>
    intro s0 x h
    simp only [secsFilenames, List.mem_append, List.mem_map,
      List.mem_range'_1] at h
    rcases h with ⟨u, _, rfl⟩ | h
    · exact ⟨s0, u, Nat.le_refl _, rfl⟩
    · obtain ⟨s, u, hs, rfl⟩ := ih h
      exact ⟨s, u, by omega, rfl⟩

theorem secsFilenames_nodup (mIdx : Nat) :
    ∀ (secs : List CSection) (s0 : Nat), (secsFilenames mIdx s0 secs).Nodup := by
  intro secs
  induction secs with
  | nil => intro s0; simp [secsFilenames]
  | cons sec rest ih =>
    intro s0
    simp only [secsFilenames]
    apply List.Nodup.append
    · apply List.Nodup.map
      · intro u v h
        exact (scoFilename_inj h).2.2
      · exact List.nodup_range' _ _
    · exact ih (s0 + 1)
    · intro x hx hx2
      simp only [List.mem_map, List.mem_range'_1] at hx
      obtain ⟨u, -, rfl⟩ := hx
      obtain ⟨s, v, hs, he⟩ := mem_secsFilenames hx2
      have := (scoFilename_inj he).2.1
      omega

theorem mem_modsFilenames :
    ∀ {mods : List CModule} {m0 : Nat} {x : String},
      x ∈ modsFilenames m0 mods →
      ∃ m s u, m0 ≤ m ∧ x = scoFilename m s u := by
  intro mods
  induction mods with
  | nil => intro m0 x h; simp [modsFilenames] at h
  | cons md rest ih =>
    intro m0 x h
    simp only [modsFilenames, List.mem_append] at h
    rcases h with h | h
    · obtain ⟨s, u, -, rfl⟩ := mem_secsFilenames h
      exact ⟨m0, s, u, Nat.le_refl _, rfl⟩
    · obtain ⟨m, s, u, hm, rfl⟩ := ih h
      exact ⟨m, s, u, by omega, rfl⟩

theorem modsFilenames_nodup :
    ∀ (mods : List CModule) (m0 : Nat), (modsFilenames m0 mods).Nodup := by
  intro mods
  induction mods with
  | nil => intro m0; simp [modsFilenames]
  | cons md rest ih =>
    intro m0
    simp only [modsFilenames]
    apply List.Nodup.append
    · exact secsFilenames_nodup m0 md.sections 0
    · exact ih (m0 + 1)
    · intro x hx hx2
      obtain ⟨s, u, -, rfl⟩ := mem_secsFilenames hx
      obtain ⟨m, t, v, hm, he⟩ := mem_modsFilenames hx2
      have := (scoFilename_inj he).1
      omega

theorem final_not_mem_modsFilenames (mods : List CModule) (m0 : Nat) :
    "final_test.html" ∉ modsFilenames m0 mods := by
  intro h
  obtain ⟨m, s, u, -, he⟩ := mem_modsFilenames h
  exact scoFilename_ne_final m s u he.symm

/-! ### Projections of build -/

/-- The resource entry appended for the final assessment. -/
def finalResEntry (course : CCourse) : ResEntry :=
  ⟨"RES_" ++ natStr (totalScos course + 1), "final_test.html"⟩

/-- The organizations_tree entry appended for the final assessment. -/
def finalOrgEntry (course : CCourse) : OrgEntry :=
  .fin "Итоговое тестирование" ("ITEM_" ++ natStr (totalScos course + 1))
    ("RES_" ++ natStr (totalScos course + 1))

theorem unitWalk_counter (render : RenderFn) (course : CCourse) :
    (unitWalk render course).1 = totalScos course := by
  rw [unitWalk, compileModules_counter, totalScos_eq_modsCount]
  omega

theorem unitWalk_res_ids (render : RenderFn) (course : CCourse) :
    (unitWalk render course).2.2.1.map ResEntry.res_id =
      (List.range' 1 (totalScos course)).map (fun i => "RES_" ++ natStr i) := by
  rw [unitWalk, compileModules_res_ids, totalScos_eq_modsCount]

theorem unitWalk_hrefs (render : RenderFn) (course : CCourse) :
    (unitWalk render course).2.2.1.map ResEntry.href =
      modsFilenames 0 course.modules := by
  rw [unitWalk, compileModules_hrefs]

theorem unitWalk_file_keys (render : RenderFn) (course : CCourse) :
    (unitWalk render course).2.2.2.map Prod.fst =
      (unitWalk render course).2.2.1.map ResEntry.href := by
  rw [unitWalk, compileModules_file_keys]

theorem unitWalk_res_length (render : RenderFn) (course : CCourse) :
    (unitWalk render course).2.2.1.length = totalScos course := by
  have h := congrArg List.length (unitWalk_res_ids render course)
  simpa using h

theorem build_resources_eq (render : RenderFn) (styleCss scormJs : String)
    (course : CCourse) :
    (build render styleCss scormJs course).resources =
      (unitWalk render course).2.2.1 ++
        (if course.final_test.isEmpty then [] else [finalResEntry course]) := by
  rw [build]
  by_cases h : course.final_test.isEmpty
  · simp [h]
  · simp [h, finalResEntry, unitWalk_counter]

theorem build_orgTree_eq (render : RenderFn) (styleCss scormJs : String)
    (course : CCourse) :
    (build render styleCss scormJs course).orgTree =
      ((unitWalk render course).2.1.map OrgEntry.mod) ++
        (if course.final_test.isEmpty then [] else [finalOrgEntry course]) := by
  rw [build]
  by_cases h : course.final_test.isEmpty
  · simp [h]
  · simp [h, finalOrgEntry, unitWalk_counter]

theorem build_file_keys (render : RenderFn) (styleCss scormJs : String)
    (course : CCourse) :
    (build render styleCss scormJs course).files.map Prod.fst =
      "style.css" :: "scorm_api.js" ::
        ((unitWalk render course).2.2.2.map Prod.fst ++
          (if course.final_test.isEmpty then [] else ["final_test.html"]) ++
          ["imsmanifest.xml"]) := by
  rw [build]
  by_cases h : course.final_test.isEmpty
  · simp [h]
  · simp [h]

theorem contentFilenames_build (render : RenderFn) (styleCss scormJs : String)
    (course : CCourse) :
    contentFilenames (build render styleCss scormJs course) =
      (build render styleCss scormJs course).resources.map ResEntry.href := by
  rw [contentFilenames, build_file_keys, build_resources_eq]
  rw [List.map_append, unitWalk_file_keys]
  simp only [List.filter_cons]
  have hstyle : ¬ ("style.css" ≠ "style.css" ∧ "style.css" ≠ "scorm_api.js" ∧
      "style.css" ≠ "imsmanifest.xml") := by simp
  have hjs : ¬ ("scorm_api.js" ≠ "style.css" ∧ "scorm_api.js" ≠ "scorm_api.js" ∧
      "scorm_api.js" ≠ "imsmanifest.xml") := by simp
  simp only [decide_eq_true_eq, hstyle, hjs, if_false]
  rw [List.filter_append, List.filter_append]
  have hunit : ((unitWalk render course).2.2.1.map ResEntry.href).filter
      (fun f => decide (f ≠ "style.css" ∧ f ≠ "scorm_api.js" ∧ f ≠ "imsmanifest.xml"))
      = (unitWalk render course).2.2.1.map ResEntry.href := by
    apply List.filter_eq_self.mpr
    intro x hx
    rw [unitWalk_hrefs] at hx
    obtain ⟨m, s, u, -, rfl⟩ := mem_modsFilenames hx
    simp [scoFilename_ne_style, scoFilename_ne_js, scoFilename_ne_manifest]
  have hman : (["imsmanifest.xml"].filter
      (fun f => decide (f ≠ "style.css" ∧ f ≠ "scorm_api.js" ∧ f ≠ "imsmanifest.xml"))) =
      ([] : List String) := by rfl
  rw [hunit, hman]
  cases hE : course.final_test.isEmpty
  · simp only [Bool.false_eq_true, if_false]
    have hfin : (["final_test.html"].filter
        (fun f => decide (f ≠ "style.css" ∧ f ≠ "scorm_api.js" ∧ f ≠ "imsmanifest.xml"))) =
        ["final_test.html"] := by rfl
    rw [hfin]
    simp [finalResEntry]
  · simp

/-- C1: for a course with N leaf units plus an optional non-empty final
assessment, build assigns exactly N (+1 when the assessment is present)
pairwise-distinct resource identifiers and equally many pairwise-distinct
content filenames, and the final-assessment identifier/resource/filename
triple is appended after all unit triples. -/
theorem C1_identifier_compiler (render : RenderFn) (styleCss scormJs : String)
    (course : CCourse) :
    ((build render styleCss scormJs course).resources.length =
        totalScos course + (if course.final_test.isEmpty then 0 else 1))
    ∧ ((build render styleCss scormJs course).resources.map ResEntry.res_id).Nodup
    ∧ ((build render styleCss scormJs course).resources.map ResEntry.href).Nodup
    ∧ contentFilenames (build render styleCss scormJs course) =
        (build render styleCss scormJs course).resources.map ResEntry.href
    ∧ (build render styleCss scormJs course).resources =
        (unitWalk render course).2.2.1 ++
          (if course.final_test.isEmpty then [] else [finalResEntry course])
    ∧ (build render styleCss scormJs course).orgTree =
        ((unitWalk render course).2.1.map OrgEntry.mod) ++
          (if course.final_test.isEmpty then [] else [finalOrgEntry course]) := by
  refine ⟨?_, ?_, ?_, contentFilenames_build render styleCss scormJs course,
    build_resources_eq render styleCss scormJs course,
    build_orgTree_eq render styleCss scormJs course⟩
  · rw [build_resources_eq, List.length_append, unitWalk_res_length]
    cases hE : course.final_test.isEmpty <;> simp
  · rw [build_resources_eq, List.map_append, unitWalk_res_ids]
    cases hE : course.final_test.isEmpty
    · simp only [Bool.false_eq_true, if_false, List.map_cons, List.map_nil,
        finalResEntry]
      have hconcat : (List.range' 1 (totalScos course)).map
            (fun i => "RES_" ++ natStr i) ++ ["RES_" ++ natStr (totalScos course + 1)] =
          (List.range' 1 (totalScos course + 1)).map (fun i => "RES_" ++ natStr i) := by
        rw [List.range'_concat]
        simp [Nat.add_comm]
      rw [hconcat]
      exact res_id_map_nodup 1 (totalScos course + 1)
    · simp only [if_true, List.append_nil, List.map_nil]
      exact res_id_map_nodup 1 (totalScos course)
  · rw [build_resources_eq, List.map_append, unitWalk_hrefs]
    cases hE : course.final_test.isEmpty
    · simp only [Bool.false_eq_true, if_false, List.map_cons, List.map_nil,
        finalResEntry]
      rw [List.nodup_append]
      refine ⟨modsFilenames_nodup course.modules 0, by simp, ?_⟩
      intro x hx
      simp only [List.mem_singleton]
      intro hx2
      exact final_not_mem_modsFilenames course.modules 0 (hx2 ▸ hx)
    · simpa using modsFilenames_nodup course.modules 0

/-! ### Reading back the manifest: element collection -/

/-- All elements with the given tag, in document order. -/
def collectTagged (t : String) : Xml → List Xml
  | .el tag attrs tx cs =>
    (if tag == t then [Xml.el tag attrs tx cs] else []) ++
      (cs.attach.map (fun c => collectTagged t c.1)).flatten
termination_by x => sizeOf x
decreasing_by
  have := List.sizeOf_lt_of_mem c.2
  simp only [Xml.el.sizeOf_spec]
  omega

theorem collectTagged_el (t tag : String) (attrs : List (String × String))
    (tx : Option String) (cs : List Xml) :
    collectTagged t (.el tag attrs tx cs) =
      (if tag == t then [Xml.el tag attrs tx cs] else []) ++
        (cs.map (collectTagged t)).flatten := by
  rw [collectTagged, List.attach_map_coe]

/-- The href attributes of the resource elements of a manifest. -/
def resourceHrefs (x : Xml) : List String :=
  (collectTagged "resource" x).filterMap (fun e => e.attr? "href")

/-- The href attributes of the file children of a manifest. -/
def fileHrefs (x : Xml) : List String :=
  (collectTagged "file" x).filterMap (fun e => e.attr? "href")

/-- Tags that never occur inside the organizations item tree. -/
def orgTagFree (t : String) : Prop :=
  t ≠ "item" ∧ t ≠ "title" ∧ t ≠ "adlcp:masteryscore"

theorem collect_scoItemXml {t : String} (h : orgTagFree t) (mv : String)
    (e : ScoEntry) : collectTagged t (scoItemXml mv e) = [] := by
  obtain ⟨h1, h2, h3⟩ := h
  simp [scoItemXml, collectTagged_el, Ne.symm h1, Ne.symm h2, Ne.symm h3]

theorem collect_secItemXml {t : String} (h : orgTagFree t) (mv : String)
    (mIdx sIdx : Nat) (sec : SecData) :
    collectTagged t (secItemXml mv mIdx sIdx sec) = [] := by
  obtain ⟨h1, h2, h3⟩ := h
  have hi : ("item" == t) = false := beq_eq_false_iff_ne.mpr (Ne.symm h1)
  have ht : ("title" == t) = false := beq_eq_false_iff_ne.mpr (Ne.symm h2)
  simp only [secItemXml, collectTagged_el, List.map_cons, List.map_map,
    List.flatten_cons, hi, ht, Bool.false_eq_true, if_false,
    List.nil_append, List.map_nil, List.flatten_nil, List.append_nil]
  rw [List.flatten_eq_nil_iff]
  intro l hl
  simp only [List.mem_map, Function.comp_apply] at hl
  obtain ⟨e, -, rfl⟩ := hl
  exact collect_scoItemXml ⟨h1, h2, h3⟩ mv e

theorem collect_orgEntryXml {t : String} (h : orgTagFree t) (mv : String)
    (mIdx : Nat) (e : OrgEntry) :
    collectTagged t (orgEntryXml mv mIdx e) = [] := by
  obtain ⟨h1, h2, h3⟩ := h
  cases e with
  | fin ft fi fr =>
    simp [orgEntryXml, collectTagged_el, Ne.symm h1, Ne.symm h2, Ne.symm h3]
  | mod md =>
    have hi : ("item" == t) = false := beq_eq_false_iff_ne.mpr (Ne.symm h1)
    have ht : ("title" == t) = false := beq_eq_false_iff_ne.mpr (Ne.symm h2)
    simp only [orgEntryXml, collectTagged_el, List.map_cons, List.map_map,
      List.flatten_cons, hi, ht, Bool.false_eq_true, if_false,
      List.nil_append, List.map_nil, List.flatten_nil, List.append_nil]
    rw [List.flatten_eq_nil_iff]
    intro l hl
    simp only [List.mem_map, Function.comp_apply] at hl
    obtain ⟨p, -, rfl⟩ := hl
    exact collect_secItemXml ⟨h1, h2, h3⟩ mv mIdx p.1 p.2

theorem collect_orgItemsXml {t : String} (h : orgTagFree t) (mv : String) :
    ∀ (m0 : Nat) (tree : List OrgEntry),
      ((orgItemsXml mv m0 tree).map (collectTagged t)).flatten = [] := by
  intro m0 tree
  induction tree generalizing m0 with
  | nil => simp [orgItemsXml]
  | cons e rest ih =>
    simp only [orgItemsXml, List.map_cons, List.flatten_cons]
    rw [collect_orgEntryXml h, ih]
    simp

theorem collect_resourceXml_resource (r : ResEntry) :
    collectTagged "resource" (resourceXml r) = [resourceXml r] := by
  simp [resourceXml, collectTagged_el]

theorem collect_resourceXml_file (r : ResEntry) :
    collectTagged "file" (resourceXml r) =
      [.el "file" [("href", r.href)] none [],
       .el "file" [("href", "style.css")] none [],
       .el "file" [("href", "scorm_api.js")] none []] := by
  simp [resourceXml, collectTagged_el]

theorem flatten_map_collect_resource (res : List ResEntry) :
    ((res.map resourceXml).map (collectTagged "resource")).flatten =
      res.map resourceXml := by
  induction res with
  | nil => simp
  | cons r rest ih =>
    simp only [List.map_cons, List.flatten_cons, collect_resourceXml_resource]
    rw [ih]
    simp

theorem flatten_map_collect_file (res : List ResEntry) :
    ((res.map resourceXml).map (collectTagged "file")).flatten =
      (res.map (fun r =>
        [Xml.el "file" [("href", r.href)] none [],
         Xml.el "file" [("href", "style.css")] none [],
         Xml.el "file" [("href", "scorm_api.js")] none []])).flatten := by
  induction res with
  | nil => simp
  | cons r rest ih =>
    simp only [List.map_cons, List.flatten_cons, collect_resourceXml_file]
    rw [ih]

theorem collect_manifest_resource (course : CCourse) (tree : List OrgEntry)
    (res : List ResEntry) :
    collectTagged "resource" (generateManifest course tree res) =
      res.map resourceXml := by
  simp only [generateManifest, collectTagged_el, List.map_cons, List.map_nil,
    List.flatten_cons, List.flatten_nil]
  rw [collect_orgItemsXml (by simp [orgTagFree]) _ 0 tree,
    flatten_map_collect_resource]
  simp

theorem collect_manifest_file (course : CCourse) (tree : List OrgEntry)
    (res : List ResEntry) :
    collectTagged "file" (generateManifest course tree res) =
      (res.map (fun r =>
        [Xml.el "file" [("href", r.href)] none [],
         Xml.el "file" [("href", "style.css")] none [],
         Xml.el "file" [("href", "scorm_api.js")] none []])).flatten := by
  simp only [generateManifest, collectTagged_el, List.map_cons, List.map_nil,
    List.flatten_cons, List.flatten_nil]
  rw [collect_orgItemsXml (by simp [orgTagFree]) _ 0 tree,
    flatten_map_collect_file]
  simp

theorem resourceXml_attr_href (r : ResEntry) :
    (resourceXml r).attr? "href" = some r.href := rfl

theorem resourceHrefs_manifest (course : CCourse) (tree : List OrgEntry)
    (res : List ResEntry) :
    resourceHrefs (generateManifest course tree res) =
      res.map ResEntry.href := by
  rw [resourceHrefs, collect_manifest_resource]
  induction res with
  | nil => simp
  | cons r rest ih =>
    simp only [List.map_cons, List.filterMap_cons, resourceXml_attr_href]
    rw [ih]

theorem fileHrefs_manifest (course : CCourse) (tree : List OrgEntry)
    (res : List ResEntry) :
    fileHrefs (generateManifest course tree res) =
      (res.map (fun r => [r.href, "style.css", "scorm_api.js"])).flatten := by
  rw [fileHrefs, collect_manifest_file]
  induction res with
  | nil => simp
  | cons r rest ih =>
    simp only [List.map_cons, List.flatten_cons, List.filterMap_append]
    rw [ih]
    rfl

theorem build_manifestTree_eq (render : RenderFn) (styleCss scormJs : String)
    (course : CCourse) :
    (build render styleCss scormJs course).manifestTree =
      generateManifest course (build render styleCss scormJs course).orgTree
        (build render styleCss scormJs course).resources := by
  rw [build]
  by_cases h : course.final_test.isEmpty
  · simp [h]
  · simp [h]

/-- C2: the resource hrefs of the produced manifest are exactly the
generated content filenames of the archive, every file referenced from the
resources section is present in the archive, and every generated content
file is referenced. -/
theorem C2_manifest_archive_roundtrip (render : RenderFn)
    (styleCss scormJs : String) (course : CCourse) :
    (resourceHrefs (build render styleCss scormJs course).manifestTree =
        contentFilenames (build render styleCss scormJs course))
    ∧ (∀ h ∈ fileHrefs (build render styleCss scormJs course).manifestTree,
        h ∈ (build render styleCss scormJs course).files.map Prod.fst)
    ∧ (∀ f ∈ contentFilenames (build render styleCss scormJs course),
        f ∈ resourceHrefs (build render styleCss scormJs course).manifestTree) := by
  have hres : resourceHrefs (build render styleCss scormJs course).manifestTree =
      (build render styleCss scormJs course).resources.map ResEntry.href := by
    rw [build_manifestTree_eq, resourceHrefs_manifest]
  have hcontent := contentFilenames_build render styleCss scormJs course
  have hmemkeys : ∀ x ∈ (build render styleCss scormJs course).resources.map
      ResEntry.href, x ∈ (build render styleCss scormJs course).files.map Prod.fst := by
    intro x hx
    rw [← hcontent] at hx
    exact (List.mem_filter.mp hx).1
  refine ⟨hres.trans hcontent.symm, ?_, ?_⟩
  · intro h hh
    rw [build_manifestTree_eq, fileHrefs_manifest] at hh
    rw [List.mem_flatten] at hh
    obtain ⟨l, hl, hmem⟩ := hh
    rw [List.mem_map] at hl
    obtain ⟨r, hr, rfl⟩ := hl
    simp only [List.mem_cons, List.not_mem_nil, or_false] at hmem
    rcases hmem with rfl | rfl | rfl
    · exact hmemkeys _ (List.mem_map.mpr ⟨r, hr, rfl⟩)
    · rw [build_file_keys]; simp
    · rw [build_file_keys]; simp
  · intro f hf
    rw [hres.trans hcontent.symm]
    exact hf

/-! ### Manifest structural invariants (organizations, mastery score,
resource attributes) -/

/-- Whether an element has an adlcp:masteryscore child carrying the given
text. -/
def hasMasteryChild (mv : String) (x : Xml) : Bool :=
  x.children.any (fun c => c.tag == "adlcp:masteryscore" && c.text == some mv)

/-- A leaf item (one carrying identifierref) must carry the mastery score;
non-leaf items pass vacuously. -/
def leafMasteryOk (mv : String) (x : Xml) : Bool :=
  !(x.attr? "identifierref").isSome || hasMasteryChild mv x

theorem collect_resourceXml_other {t : String} (h1 : t ≠ "resource")
    (h2 : t ≠ "file") (r : ResEntry) :
    collectTagged t (resourceXml r) = [] := by
  simp [resourceXml, collectTagged_el, Ne.symm h1, Ne.symm h2]

theorem flatten_collect_res_other {t : String} (h1 : t ≠ "resource")
    (h2 : t ≠ "file") (res : List ResEntry) :
    ((res.map resourceXml).map (collectTagged t)).flatten = [] := by
  induction res with
  | nil => simp
  | cons r rest ih =>
    simp only [List.map_cons, List.flatten_cons,
      collect_resourceXml_other h1 h2]
    rw [ih]
    simp

theorem collect_manifest_organizations (course : CCourse)
    (tree : List OrgEntry) (res : List ResEntry) :
    collectTagged "organizations" (generateManifest course tree res) =
      [Xml.el "organizations" [("default", "default-org")] none
        [Xml.el "organization" [("identifier", "default-org")] none
          (Xml.el "title" [] (some (course.title.getD "Untitled Course")) [] ::
            orgItemsXml (masteryVal course) 0 tree)]] := by
  simp only [generateManifest, collectTagged_el, List.map_cons, List.map_nil,
    List.flatten_cons, List.flatten_nil]
  rw [collect_orgItemsXml (by simp [orgTagFree]) _ 0 tree,
    flatten_collect_res_other (by simp) (by simp) res]
  simp

theorem collect_manifest_organization (course : CCourse)
    (tree : List OrgEntry) (res : List ResEntry) :
    collectTagged "organization" (generateManifest course tree res) =
      [Xml.el "organization" [("identifier", "default-org")] none
        (Xml.el "title" [] (some (course.title.getD "Untitled Course")) [] ::
          orgItemsXml (masteryVal course) 0 tree)] := by
  simp only [generateManifest, collectTagged_el, List.map_cons, List.map_nil,
    List.flatten_cons, List.flatten_nil]
  rw [collect_orgItemsXml (by simp [orgTagFree]) _ 0 tree,
    flatten_collect_res_other (by simp) (by simp) res]
  simp

theorem collect_manifest_item (course : CCourse) (tree : List OrgEntry)
    (res : List ResEntry) :
    collectTagged "item" (generateManifest course tree res) =
      ((orgItemsXml (masteryVal course) 0 tree).map (collectTagged "item")).flatten := by
  simp only [generateManifest, collectTagged_el, List.map_cons, List.map_nil,
    List.flatten_cons, List.flatten_nil]
  rw [flatten_collect_res_other (by simp) (by simp) res]
  simp

theorem flatten_map_singleton {α β : Type} (l : List α) (f : α → β) :
    (l.map (fun x => [f x])).flatten = l.map f := by
  induction l <;> simp_all

theorem collect_item_scoItemXml (mv : String) (e : ScoEntry) :
    collectTagged "item" (scoItemXml mv e) = [scoItemXml mv e] := by
  simp [scoItemXml, collectTagged_el]

theorem collect_item_secItemXml (mv : String) (mIdx sIdx : Nat)
    (sec : SecData) :
    collectTagged "item" (secItemXml mv mIdx sIdx sec) =
      secItemXml mv mIdx sIdx sec :: sec.scos.map (scoItemXml mv) := by
  simp [secItemXml, collectTagged_el, Function.comp_def,
    collect_item_scoItemXml, flatten_map_singleton]

theorem leafOk_scoItemXml (mv : String) (e : ScoEntry) :
    leafMasteryOk mv (scoItemXml mv e) = true := by
  simp [leafMasteryOk, hasMasteryChild, scoItemXml, Xml.children, Xml.tag,
    Xml.text, Xml.attr?]

theorem leafOk_collect_secItemXml (mv : String) (mIdx sIdx : Nat)
    (sec : SecData) :
    ∀ x ∈ collectTagged "item" (secItemXml mv mIdx sIdx sec),
      leafMasteryOk mv x = true := by
  intro x hx
  rw [collect_item_secItemXml, List.mem_cons] at hx
  rcases hx with rfl | hx
  · rfl
  · rw [List.mem_map] at hx
    obtain ⟨e2, -, rfl⟩ := hx
    exact leafOk_scoItemXml mv e2

theorem collect_item_orgEntry_fin (mv : String) (mIdx : Nat)
    (ft fi fr : String) :
    collectTagged "item" (orgEntryXml mv mIdx (.fin ft fi fr)) =
      [orgEntryXml mv mIdx (.fin ft fi fr)] := by
  simp [orgEntryXml, collectTagged_el]

theorem collect_item_orgEntry_mod (mv : String) (mIdx : Nat) (md : ModData) :
    collectTagged "item" (orgEntryXml mv mIdx (.mod md)) =
      orgEntryXml mv mIdx (.mod md) ::
        (md.sections.enum.map
          (fun p => collectTagged "item" (secItemXml mv mIdx p.1 p.2))).flatten := by
  simp [orgEntryXml, collectTagged_el, Function.comp_def]

theorem leafOk_collect_orgEntryXml (mv : String) (mIdx : Nat) (e : OrgEntry) :
    ∀ x ∈ collectTagged "item" (orgEntryXml mv mIdx e),
      leafMasteryOk mv x = true := by
  intro x hx
  cases e with
  | fin ft fi fr =>
    rw [collect_item_orgEntry_fin, List.mem_singleton] at hx
    subst hx
    simp [leafMasteryOk, hasMasteryChild, orgEntryXml, Xml.children, Xml.tag,
      Xml.text, Xml.attr?]
  | mod md =>
    rw [collect_item_orgEntry_mod, List.mem_cons] at hx
    rcases hx with rfl | hx
    · rfl
    · rw [List.mem_flatten] at hx
      obtain ⟨l, hl, hmem⟩ := hx
      rw [List.mem_map] at hl
      obtain ⟨p, -, rfl⟩ := hl
      exact leafOk_collect_secItemXml mv mIdx p.1 p.2 x hmem

theorem leafOk_collect_orgItemsXml (mv : String) :
    ∀ (tree : List OrgEntry) (m0 : Nat),
      ∀ x ∈ ((orgItemsXml mv m0 tree).map (collectTagged "item")).flatten,
        leafMasteryOk mv x = true := by
  intro tree
  induction tree with
  | nil => intro m0 x hx; simp [orgItemsXml] at hx
  | cons e rest ih =>
    intro m0 x hx
    simp only [orgItemsXml, List.map_cons, List.flatten_cons,
      List.mem_append] at hx
    rcases hx with hx | hx
    · exact leafOk_collect_orgEntryXml mv m0 e x hx
    · exact ih (m0 + 1) x hx

/-- C6: the generated manifest has a single default-selected organization,
every leaf item carries an adlcp:masteryscore child equal to the settings
passing score rendered as an integer string, and every resource is a
webcontent sco. -/
theorem C6_manifest_invariants (render : RenderFn) (styleCss scormJs : String)
    (course : CCourse) :
    ((collectTagged "organizations"
        (build render styleCss scormJs course).manifestTree).map
          (fun e => e.attr? "default") = [some "default-org"])
    ∧ ((collectTagged "organization"
        (build render styleCss scormJs course).manifestTree).map
          (fun e => e.attr? "identifier") = [some "default-org"])
    ∧ ((collectTagged "item" (build render styleCss scormJs course).manifestTree).all
        (leafMasteryOk (masteryVal course)) = true)
    ∧ ((collectTagged "resource"
        (build render styleCss scormJs course).manifestTree).all
          (fun r => (r.attr? "type" == some "webcontent")
            && (r.attr? "adlcp:scormtype" == some "sco")) = true)
    ∧ masteryVal course =
        intStr (((course.settings.getD ⟨none⟩).passing_score).getD 80) := by
  refine ⟨?_, ?_, ?_, ?_, rfl⟩
  · rw [build_manifestTree_eq, collect_manifest_organizations]
    rfl
  · rw [build_manifestTree_eq, collect_manifest_organization]
    rfl
  · rw [build_manifestTree_eq, collect_manifest_item, List.all_eq_true]
    intro x hx
    exact leafOk_collect_orgItemsXml (masteryVal course)
      (build render styleCss scormJs course).orgTree 0 x hx
  · rw [build_manifestTree_eq, collect_manifest_resource, List.all_eq_true]
    intro r hr
    rw [List.mem_map] at hr
    obtain ⟨e, -, rfl⟩ := hr
    rfl

/-! ### Retry logic, from LLMCourseGenerator._call_llm_with_retry -/

/-- The Python substring test: pat in hay. -/
def strContains (hay pat : String) : Bool := decide (pat.data <:+: hay.data)

/-- Python str.lower, accurate for the ASCII text of error messages. -/
def lowerStr (s : String) : String := String.mk (s.data.map Char.toLower)

/-- An exception raised by the underlying client call: its Python class
flags (ConnectionError / TimeoutError) and its str() text. -/
structure LLMFailure where
  isConnectionError : Bool
  isTimeoutError : Bool
  message : String
deriving DecidableEq, Inhabited

/-- The retryable classification of _call_llm_with_retry. -/
def isRetryable (e : LLMFailure) : Bool :=
  e.isConnectionError || e.isTimeoutError
    || strContains e.message "429" || strContains e.message "500"
    || strContains e.message "502" || strContains e.message "503"
    || strContains (lowerStr e.message) "connect"
    || strContains (lowerStr e.message) "timeout"

/-- The outcome of one underlying client call. -/
inductive CallOutcome (α : Type) where
  | success (v : α)
  | failure (e : LLMFailure)

/-- The outcome of the retry loop: a returned value, a raised exception, or
the implicit None when the loop body never runs (max_retries = 0). -/
inductive RetryResult (α : Type) where
  | returned (v : α)
  | raised (e : LLMFailure)
  | fellOff

/-- The for-attempt-in-range loop of _call_llm_with_retry: rem is the
number of iterations left, attempt the loop variable.  The second component
records the backoff sleeps performed, in seconds. -/
def retryAux {α : Type} (call : Nat → CallOutcome α) (maxRetries : Nat) :
    Nat → Nat → RetryResult α × List Nat
  | 0, _ => (.fellOff, [])
  | rem + 1, attempt =>
    match call attempt with
    | .success v => (.returned v, [])
    | .failure e =>
      if isRetryable e && decide (attempt < maxRetries - 1) then
        let r := retryAux call maxRetries rem (attempt + 1)
        (r.1, 2 ^ attempt :: r.2)
      else (.raised e, [])

/-- LLMCourseGenerator._call_llm_with_retry with its default bound of 3
attempts, abstracting the underlying client call as a function from the
attempt number to its outcome. -/
def callLLMWithRetry {α : Type} (call : Nat → CallOutcome α)
    (maxRetries : Nat := 3) : RetryResult α × List Nat :=
  retryAux call maxRetries maxRetries 0

/-- C5: with the fixed bound of 3 attempts, a first-attempt success returns
immediately; a non-retryable failure is raised at once with no backoff;
retryable failures back off 1s then 2s (doubling); a success on attempt 3
after two retryable failures is returned with no error; exhaustion raises
the last cause. -/
theorem C5_retry_policy {α : Type} (call : Nat → CallOutcome α) (v : α)
    (e0 e1 e2 : LLMFailure) :
    (call 0 = .success v → callLLMWithRetry call = (.returned v, []))
    ∧ (call 0 = .failure e0 → isRetryable e0 = false →
        callLLMWithRetry call = (.raised e0, []))
    ∧ (call 0 = .failure e0 → isRetryable e0 = true →
        call 1 = .failure e1 → isRetryable e1 = false →
        callLLMWithRetry call = (.raised e1, [1]))
    ∧ (call 0 = .failure e0 → isRetryable e0 = true →
        call 1 = .failure e1 → isRetryable e1 = true →
        call 2 = .success v →
        callLLMWithRetry call = (.returned v, [1, 2]))
    ∧ (call 0 = .failure e0 → isRetryable e0 = true →
        call 1 = .failure e1 → isRetryable e1 = true →
        call 2 = .failure e2 →
        callLLMWithRetry call = (.raised e2, [1, 2])) := by
  refine ⟨?_, ?_, ?_, ?_, ?_⟩
  · intro h0
    simp [callLLMWithRetry, retryAux, h0]
  · intro h0 hr0
    simp [callLLMWithRetry, retryAux, h0, hr0]
  · intro h0 hr0 h1 hr1
    simp [callLLMWithRetry, retryAux, h0, hr0, h1, hr1]
  · intro h0 hr0 h1 hr1 h2
    simp [callLLMWithRetry, retryAux, h0, hr0, h1, hr1, h2]
  · intro h0 hr0 h1 hr1 h2
    simp [callLLMWithRetry, retryAux, h0, hr0, h1, hr1, h2]

/-- The concrete call used in the C5 witness: retryable connection failures
on attempts 0 and 1, success on attempt 2. -/
def flakyCall : Nat → CallOutcome Nat :=
  fun n => if n < 2 then .failure ⟨true, false, "connection reset"⟩
    else .success 7

/-- Witness for C5: two retryable transport failures then a success yield
the successful result with backoff sleeps of 1s and 2s and no error. -/
theorem C5_retry_policy_witness :
    callLLMWithRetry flakyCall = (.returned 7, [1, 2]) :=
  (C5_retry_policy flakyCall 7 ⟨true, false, "connection reset"⟩
      ⟨true, false, "connection reset"⟩
      ⟨true, false, "connection reset"⟩).2.2.2.1
    rfl rfl rfl rfl rfl

/-! ### Package assembly, from SCORMBuilder._create_zip -/

/-- The observable outcome of one _create_zip call: the raised-or-ok result
and the file left at the output path (none when no file exists there). -/
structure ZipRun where
  result : Except String Unit
  disk : Option (List (String × String))

/-- The write loop of _create_zip: zipfile.ZipFile(output_path, "w") has
already created (truncated) the file at the output path; each writestr
appends one member; a failing write raises out of the with block, leaving
the members written so far on disk.  writeOk i gives the outcome of the
i-th write. -/
def createZipAux (writeOk : Nat → Bool) :
    List (String × String) → Nat → List (String × String) → ZipRun
  | [], _, written => ⟨.ok (), some written⟩
  | f :: rest, i, written =>
    if writeOk i then createZipAux writeOk rest (i + 1) (written ++ [f])
    else ⟨.error "write failed", some written⟩

/-- SCORMBuilder._create_zip: writes every member directly into the file at
the output path (no temporary file, no cleanup handler). -/
def createZip (files : List (String × String)) (writeOk : Nat → Bool) : ZipRun :=
  createZipAux writeOk files 0 []

theorem createZipAux_ok (writeOk : Nat → Bool) :
    ∀ (files : List (String × String)) (i : Nat) (written : List (String × String)),
      (createZipAux writeOk files i written).result = .ok () →
      (createZipAux writeOk files i written).disk = some (written ++ files) := by
  intro files
  induction files with
  | nil => intro i written _; simp [createZipAux]
  | cons f rest ih =>
    intro i written hok
    by_cases hw : writeOk i
    · rw [createZipAux] at hok ⊢
      simp only [hw, if_true] at hok ⊢
      have := ih (i + 1) (written ++ [f]) hok
      rw [this]
      simp
    · rw [createZipAux] at hok
      simp [hw] at hok

theorem createZipAux_err (writeOk : Nat → Bool) :
    ∀ (files : List (String × String)) (i : Nat) (written : List (String × String)) (s : String),
      (createZipAux writeOk files i written).result = .error s →
      ∃ k, k < files.length ∧ writeOk (i + k) = false ∧
        (createZipAux writeOk files i written).disk =
          some (written ++ files.take k) := by
  intro files
  induction files with
  | nil => intro i written s h; simp [createZipAux] at h
  | cons f rest ih =>
    intro i written s herr
    by_cases hw : writeOk i
    · rw [createZipAux] at herr ⊢
      simp only [hw, if_true] at herr ⊢
      obtain ⟨k, hk, hwk, hd⟩ := ih (i + 1) (written ++ [f]) s herr
      refine ⟨k + 1, by simpa using Nat.succ_lt_succ hk, by simpa [Nat.add_assoc, Nat.add_comm, Nat.add_left_comm] using hwk, ?_⟩
      rw [hd]
      simp
    · refine ⟨0, by simp, by simpa using hw, ?_⟩
      rw [createZipAux]
      simp [hw]

/-- The concrete failing run used against C9: two members, the second write
fails. -/
def zipMembers : List (String × String) := [("a.html", "x"), ("b.html", "y")]

/-- Write oracle that fails from the second write on. -/
def firstWriteOnly : Nat → Bool := fun i => decide (i = 0)

theorem createZip_fail_run :
    createZip zipMembers firstWriteOnly =
      ⟨.error "write failed", some [("a.html", "x")]⟩ := rfl

/-- Counterexample to C9 as stated: when the second write fails, _create_zip
raises, yet a partial archive (holding only the first member) is left at the
output path — neither no-file nor the complete archive. -/
theorem C9_atomicity_counterexample :
    ¬ ((createZip zipMembers firstWriteOnly).result ≠ .ok () →
        (createZip zipMembers firstWriteOnly).disk = none ∨
        (createZip zipMembers firstWriteOnly).disk = some zipMembers) := by
  intro h
  rcases h (by rw [createZip_fail_run]; simp) with hd | hd <;>
    rw [createZip_fail_run] at hd <;> simp [zipMembers] at hd

/-- C9 amended: on success the complete archive is at the output path and
any write failure is surfaced to the caller as an error; but the archive is
written directly at the output path, so a failure after k successful writes
leaves a partial archive holding exactly the first k members. -/
theorem C9_createZip_amended (files : List (String × String))
    (writeOk : Nat → Bool) :
    ((createZip files writeOk).result = .ok () →
        (createZip files writeOk).disk = some files)
    ∧ (∀ s, (createZip files writeOk).result = .error s →
        ∃ k, k < files.length ∧ writeOk k = false ∧
          (createZip files writeOk).disk = some (files.take k)) := by
  constructor
  · intro h
    simpa using createZipAux_ok writeOk files 0 [] h
  · intro s h
    obtain ⟨k, hk, hw, hd⟩ := createZipAux_err writeOk files 0 [] s h
    exact ⟨k, hk, by simpa using hw, by simpa using hd⟩

/-- Witness for the amended C9: a fully successful run leaves the complete
archive, and the failing run surfaces its error with the partial content. -/
theorem C9_createZip_amended_witness :
    (createZip zipMembers (fun _ => true)).disk = some zipMembers ∧
    ∃ k, k < zipMembers.length ∧ firstWriteOnly k = false ∧
      (createZip zipMembers firstWriteOnly).disk = some (zipMembers.take k) :=
  ⟨(C9_createZip_amended zipMembers (fun _ => true)).1 rfl,
   (C9_createZip_amended zipMembers firstWriteOnly).2 "write failed" rfl⟩

/-! ### Lenient response parsing, from LLMCourseGenerator._parse_llm_response -/

/-- Exceptions observable from _parse_llm_response. -/
inductive PyErr where
  | valueError (msg : String)
  | typeError
  | keyError
deriving DecidableEq, Inhabited

/-- Python str.strip() whitespace. -/
def isPyWs (c : Char) : Bool :=
  c == ' ' || c == '\t' || c == '\n' || c == '\r' || c == '\x0b' || c == '\x0c'

/-- JSON whitespace as skipped by json.loads. -/
def isJsonWs (c : Char) : Bool :=
  c == ' ' || c == '\t' || c == '\n' || c == '\r'

/-- Python str.strip(). -/
def pyStrip (s : String) : String :=
  String.mk (((s.data.dropWhile isPyWs).reverse.dropWhile isPyWs).reverse)

/-- The leading fence removal: the substitution of the anchored pattern
made of three backticks, an optional json tag and trailing whitespace. -/
def stripFenceStart (s : String) : String :=
  match s.data with
  | '`' :: '`' :: '`' :: rest =>
    let rest2 := if rest.take 4 = ['j', 's', 'o', 'n'] then rest.drop 4 else rest
    String.mk (rest2.dropWhile isPyWs)
  | _ => s

/-- The trailing fence removal: the substitution of the anchored pattern
made of an optional newline, three backticks and trailing whitespace. -/
def stripFenceEnd (s : String) : String :=
  match (s.data.reverse.dropWhile isPyWs) with
  | '`' :: '`' :: '`' :: rest2 =>
    match rest2 with
    | '\n' :: r => String.mk r.reverse
    | r => String.mk r.reverse
  | _ => s

/-- The trailing-comma removal: every comma followed by whitespace and a
closing bracket is replaced by that bracket, scanning left to right.  The
fuel argument, instantiated with the input length, only bounds the
recursion: every step consumes at least one character. -/
def rtcAux : Nat → List Char → List Char
  | 0, l => l
  | _, [] => []
  | f + 1, ',' :: rest =>
    match rest.dropWhile isPyWs with
    | '}' :: tail => '}' :: rtcAux f tail
    | ']' :: tail => ']' :: rtcAux f tail
    | _ => ',' :: rtcAux f rest
  | f + 1, c :: rest => c :: rtcAux f rest

def removeTrailingCommas (s : String) : String :=
  String.mk (rtcAux s.data.length s.data)

/-- The body of a JSON string literal after the opening quote, handling the
single-character escapes; unicode escapes are not modelled. -/
def parseStrBody : List Char → List Char → Option (List Char × List Char)
  | [], _ => none
  | '"' :: rest, acc => some (acc.reverse, rest)
  | '\\' :: e :: rest, acc =>
    let c? : Option Char :=
      if e = '"' then some '"'
      else if e = '\\' then some '\\'
      else if e = '/' then some '/'
      else if e = 'n' then some '\n'
      else if e = 't' then some '\t'
      else if e = 'r' then some '\r'
      else if e = 'b' then some (Char.ofNat 8)
      else if e = 'f' then some (Char.ofNat 12)
      else none
    match c? with
    | some c => parseStrBody rest (c :: acc)
    | none => none
  | c :: rest, acc => parseStrBody rest (c :: acc)

/-- An unsigned decimal integer literal; a following fraction or exponent
marker makes the parse fail (floats are outside the model). -/
def parseNumBody (l : List Char) : Option (Nat × List Char) :=
  let ds := l.takeWhile Char.isDigit
  let rest := l.dropWhile Char.isDigit
  if ds.isEmpty then none
  else match rest with
    | '.' :: _ => none
    | 'e' :: _ => none
    | 'E' :: _ => none
    | _ => some (digitsVal 0 ds, rest)

mutual

/-- A fuel-bounded recursive-descent JSON value parser modelling
json.loads. -/
def parseVal : Nat → List Char → Option (Json × List Char)
  | 0, _ => none
  | f + 1, l =>
    match l.dropWhile isJsonWs with
    | 'n' :: 'u' :: 'l' :: 'l' :: rest => some (.null, rest)
    | 't' :: 'r' :: 'u' :: 'e' :: rest => some (.bool true, rest)
    | 'f' :: 'a' :: 'l' :: 's' :: 'e' :: rest => some (.bool false, rest)
    | '"' :: rest =>
      match parseStrBody rest [] with
      | some (cs, r) => some (.str (String.mk cs), r)
      | none => none
    | '[' :: rest =>
      match rest.dropWhile isJsonWs with
      | ']' :: r2 => some (.arr [], r2)
      | _ =>
        match parseItems f rest with
        | some (items, r2) => some (.arr items, r2)
        | none => none
    | '{' :: rest =>
      match rest.dropWhile isJsonWs with
      | '}' :: r2 => some (.obj [], r2)
      | _ =>
        match parseFields f rest with
        | some (fs, r2) => some (.obj fs, r2)
        | none => none
    | '-' :: rest =>
      match parseNumBody rest with
      | some (n, r) => some (.num (-(n : Int)), r)
      | none => none
    | l2 =>
      match parseNumBody l2 with
      | some (n, r) => some (.num (n : Int), r)
      | none => none

/-- Comma-separated array items up to the closing bracket. -/
def parseItems : Nat → List Char → Option (List Json × List Char)
  | 0, _ => none
  | f + 1, l =>
    match parseVal f l with
    | none => none
    | some (v, r) =>
      match r.dropWhile isJsonWs with
      | ',' :: r2 =>
        match parseItems f r2 with
        | some (items, rr) => some (v :: items, rr)
        | none => none
      | ']' :: r2 => some ([v], r2)
      | _ => none

/-- Comma-separated string-keyed fields up to the closing brace. -/
def parseFields : Nat → List Char → Option (List (String × Json) × List Char)
  | 0, _ => none
  | f + 1, l =>
    match l.dropWhile isJsonWs with
    | '"' :: rest =>
      match parseStrBody rest [] with
      | none => none
      | some (key, r) =>
        match r.dropWhile isJsonWs with
        | ':' :: r2 =>
          match parseVal f r2 with
          | none => none
          | some (v, r3) =>
            match r3.dropWhile isJsonWs with
            | ',' :: r4 =>
              match parseFields f r4 with
              | some (fs, rr) => some ((String.mk key, v) :: fs, rr)
              | none => none
            | '}' :: r4 => some ([(String.mk key, v)], r4)
            | _ => none
        | _ => none
    | _ => none

end

/-- json.loads: parse one value and require only whitespace after it. -/
def loads (s : String) : Option Json :=
  match parseVal (2 * s.data.length + 2) s.data with
  | some (v, rest) => if (rest.dropWhile isJsonWs).isEmpty then some v else none
  | none => none

/-- The Python membership test needle in data, with its dynamic typing:
key lookup on dicts, element equality on lists, substring on strings, and
TypeError on non-container values. -/
def pyContains (needle : String) : Json → Except PyErr Bool
  | .obj fields => .ok (fields.any (fun p => p.1 == needle))
  | .arr items => .ok (items.any (fun j => Json.beq j (.str needle)))
  | .str s => .ok (strContains s needle)
  | _ => .error .typeError

/-- The Python subscript data[k] with a string key: dict lookup (KeyError
when absent), TypeError on every other value. -/
def pySubscript (j : Json) (k : String) : Except PyErr Json :=
  match j with
  | .obj fields =>
    match fields.reverse.find? (fun p => p.1 == k) with
    | some p => .ok p.2
    | none => .error .keyError
  | _ => .error .typeError

/-- The structure validation at the end of _parse_llm_response: title must
be a member, pages must be a member holding a list. -/
def validateParsed (data : Json) : Except PyErr Json :=
  match pyContains "title" data with
  | .error e => .error e
  | .ok hasTitle =>
    if !hasTitle then .error (.valueError "LLM не вернул поле title")
    else
      match pyContains "pages" data with
      | .error e => .error e
      | .ok hasPages =>
        if !hasPages then .error (.valueError "LLM не вернул массив pages")
        else
          match pySubscript data "pages" with
          | .error e => .error e
          | .ok pg =>
            match pg with
            | .arr _ => .ok data
            | _ => .error (.valueError "LLM не вернул массив pages")

/-- The substring from the first opening brace to the last closing brace,
when the latter ends after the former: raw.find followed by raw.rfind. -/
def firstBraceSlice (s : String) : Option String :=
  let l := s.data
  match l.findIdx? (· == '{') with
  | none => none
  | some i =>
    match l.reverse.findIdx? (· == '}') with
    | none => none
    | some rj =>
      let j := l.length - 1 - rj
      if i < j + 1 then some (String.mk ((l.drop i).take (j + 1 - i))) else none

/-- LLMCourseGenerator._parse_llm_response: strip, remove fence markers and
trailing commas, decode, fall back to the outermost brace slice, then
validate the structure. -/
def parseLLMResponse (raw : String) : Except PyErr Json :=
  let raw1 := pyStrip raw
  let raw2 := stripFenceEnd (stripFenceStart raw1)
  let raw3 := removeTrailingCommas raw2
  match loads raw3 with
  | some data => validateParsed data
  | none =>
    match firstBraceSlice raw3 with
    | some sub =>
      match loads sub with
      | some data => validateParsed data
      | none => .error (.valueError "LLM вернул невалидный JSON. Попробуйте повторить генерацию.")
    | none => .error (.valueError "LLM не вернул JSON-ответ. Попробуйте повторить генерацию.")

/-- The shape the claim promises of every returned document: a dict with a
title key whose pages value is a list. -/
def dictShapeOk (d : Json) : Bool :=
  d.hasKey "title" &&
    (match d.getKey? "pages" with
     | some (.arr _) => true
     | _ => false)

/-- The claim property at one parser outcome: a ValueError was raised or a
dict of the promised shape was returned. -/
def claimC10Holds (r : Except PyErr Json) : Bool :=
  match r with
  | .error (.valueError _) => true
  | .error _ => false
  | .ok d => dictShapeOk d

/-- Counterexample to C10 as stated: on the input 5 — a well-formed JSON
number — the membership test title in data raises TypeError, not
ValueError, and no dict is returned. -/
theorem C10_parser_counterexample :
    parseLLMResponse "5" = .error .typeError ∧
    claimC10Holds (parseLLMResponse "5") = false := by
  constructor <;> rfl

theorem validateParsed_ok {data d : Json}
    (h : validateParsed data = .ok d) : d = data ∧ dictShapeOk data = true := by
  unfold validateParsed at h
  split at h
  · exact absurd h (by simp)
  rename_i hasTitle heqTitle
  split at h
  · exact absurd h (by simp)
  rename_i hTitle
  split at h
  · exact absurd h (by simp)
  rename_i hasPages heqPages
  split at h
  · exact absurd h (by simp)
  rename_i hPages
  split at h
  · exact absurd h (by simp)
  rename_i pg heqSub
  split at h
  · rename_i items
    simp only [Except.ok.injEq] at h
    subst h
    refine ⟨rfl, ?_⟩
    cases data with
    | obj fields =>
      simp only [pySubscript] at heqSub
      cases hfind : fields.reverse.find? (fun p => p.1 == "pages") with
      | none => rw [hfind] at heqSub; exact absurd heqSub (by simp)
      | some pr =>
        rw [hfind] at heqSub
        simp only [Except.ok.injEq] at heqSub
        have hTitleTrue : (fields.any (fun p => p.1 == "title")) = true := by
          have h1 : (fields.any (fun p => p.1 == "title")) = hasTitle := by
            simpa [pyContains] using heqTitle
          have h2 : hasTitle = true := by
            cases hasTitle with
            | true => rfl
            | false => simp at hTitle
          rw [h1, h2]
        simp only [dictShapeOk, Json.hasKey, Json.getKey?, hTitleTrue,
          Bool.true_and, hfind]
        simp [heqSub]
    | null => simp [pySubscript] at heqSub
    | bool b => simp [pySubscript] at heqSub
    | num n => simp [pySubscript] at heqSub
    | str s => simp [pySubscript] at heqSub
    | arr its => simp [pySubscript] at heqSub
  · exact absurd h (by simp)

/-- C10 amended: whenever the lenient parser returns successfully, the
returned value is a dict with a title key and a list-valued pages key;
failures surface as ValueError or — for decoded non-object values — as
TypeError. -/
theorem C10_parser_amended (raw : String) (d : Json)
    (h : parseLLMResponse raw = .ok d) : dictShapeOk d = true := by
  rw [parseLLMResponse] at h
  cases hl : loads (removeTrailingCommas (stripFenceEnd (stripFenceStart (pyStrip raw)))) with
  | some data =>
    rw [hl] at h
    obtain ⟨rfl, hok⟩ :=
      validateParsed_ok (show validateParsed data = Except.ok d from h)
    exact hok
  | none =>
    rw [hl] at h
    cases hb : firstBraceSlice (removeTrailingCommas (stripFenceEnd (stripFenceStart (pyStrip raw)))) with
    | some sub =>
      rw [hb] at h
      have h3 : (match loads sub with
          | some data => validateParsed data
          | none => Except.error (PyErr.valueError
              "LLM вернул невалидный JSON. Попробуйте повторить генерацию.")) =
          Except.ok d := h
      cases hl2 : loads sub with
      | some data =>
        rw [hl2] at h3
        obtain ⟨rfl, hok⟩ := validateParsed_ok h3
        exact hok
      | none =>
        rw [hl2] at h3
        exact absurd h3 (by simp)
    | none =>
      rw [hb] at h
      exact absurd h (by simp)

/-- A well-formed response used as the C10 witness. -/
def okRaw : String := "\x7b\"title\": \"T\", \"pages\": []\x7d"

/-- Witness for the amended C10: a well-formed object response parses to a
dict of the promised shape. -/
theorem C10_parser_amended_witness :
    dictShapeOk (Json.obj [("title", Json.str "T"), ("pages", Json.arr [])]) = true :=
  C10_parser_amended okRaw
    (Json.obj [("title", Json.str "T"), ("pages", Json.arr [])]) rfl

/-! ### The structural validator

Modelled from the spec: validate_course_json on the generation side is not
among the provided sources (only its callers in web_app.py and its unit
tests are), so the validator below follows the design document rule list
of the Structural Validator section: pure, recursive, a list of string
defects, never raising and never mutating; block-type invariants per kind.
-/

/-- The six known block kinds. -/
def VALID_BLOCK_TYPES : List String :=
  ["text", "mcq", "truefalse", "fillin", "matching", "ordering"]

/-- List stored under a key, with the empty list as the lenient default. -/
def Json.getList (j : Json) (k : String) : List Json :=
  match j.getKey? k with
  | some (.arr l) => l
  | _ => []

/-- Whether an mcq option is marked correct. -/
def optionCorrect (o : Json) : Bool :=
  match o.getKey? "correct" with
  | some (.bool true) => true
  | _ => false

/-- Number of options marked correct. -/
def countCorrect (opts : List Json) : Nat :=
  (opts.filter optionCorrect).length

/-- Modelled from the spec: the two mcq rules, needing at least 2 options
and exactly 1 correct option, each with its own defect message. -/
def mcqDefects (opts : List Json) : List String :=
  (if opts.length < 2 then ["mcq needs at least 2 options"] else []) ++
    (if countCorrect opts ≠ 1 then ["mcq needs exactly 1 correct option"] else [])

/-- Modelled from the spec: per-block validation — the type must be one of
the six known kinds (defect naming the offending type otherwise), mcq has
its two rules, truefalse and fillin need a present correct_answer, matching
needs at least 2 pairs and ordering at least 2 items. -/
def blockDefects (b : Json) : List String :=
  match b.getKey? "type" with
  | some (.str t) =>
    if t = "text" then []
    else if t = "mcq" then mcqDefects (b.getList "options")
    else if t = "truefalse" then
      if b.hasKey "correct_answer" then [] else ["truefalse needs correct_answer"]
    else if t = "fillin" then
      if b.hasKey "correct_answer" then [] else ["fillin needs correct_answer"]
    else if t = "matching" then
      if (b.getList "pairs").length < 2 then ["matching needs at least 2 pairs"] else []
    else if t = "ordering" then
      if (b.getList "items").length < 2 then ["ordering needs at least 2 items"] else []
    else ["unknown block type: " ++ t]
  | _ => ["unknown block type"]

/-- Modelled from the spec: a unit must have screens, and every block of
any screen list or of the knowledge check is validated. -/
def scoDefects (u : Json) : List String :=
  (if u.hasKey "screens" then [] else ["sco missing screens"]) ++
    ((u.getList "screens").flatMap (fun scr => (scr.getList "blocks").flatMap blockDefects)) ++
    ((u.getList "knowledge_check").flatMap blockDefects)

/-- Modelled from the spec: a section must have scos. -/
def sectionDefects (s : Json) : List String :=
  (if s.hasKey "scos" then [] else ["section missing scos"]) ++
    (s.getList "scos").flatMap scoDefects

/-- Modelled from the spec: a module must have a title and sections. -/
def moduleDefects (m : Json) : List String :=
  (if m.hasKey "title" then [] else ["module missing title"]) ++
    (if m.hasKey "sections" then [] else ["module missing sections"]) ++
    (m.getList "sections").flatMap sectionDefects

/-- Modelled from the spec: the structural validator over arbitrary JSON
input — the root must be an object with title and modules (a missing
modules short-circuits), then modules are validated recursively.  Total by
construction: every input yields a defect list, none raises or mutates. -/
def validate_course_json (doc : Json) : List String :=
  match doc with
  | .obj _ =>
    let titleDefs := if doc.hasKey "title" then [] else ["course missing title"]
    if doc.hasKey "modules" then
      titleDefs ++ (doc.getList "modules").flatMap moduleDefects
    else
      titleDefs ++ ["course missing modules"]
  | _ => ["course must be an object"]

/-! ### The structural validity predicate the defect list decides -/

/-- Whether one block satisfies its block-type invariant. -/
def blockValid (b : Json) : Bool :=
  match b.getKey? "type" with
  | some (.str t) =>
    if t = "text" then true
    else if t = "mcq" then
      decide (2 ≤ (b.getList "options").length) &&
        decide (countCorrect (b.getList "options") = 1)
    else if t = "truefalse" then b.hasKey "correct_answer"
    else if t = "fillin" then b.hasKey "correct_answer"
    else if t = "matching" then decide (2 ≤ (b.getList "pairs").length)
    else if t = "ordering" then decide (2 ≤ (b.getList "items").length)
    else false
  | _ => false

def scoValid (u : Json) : Bool :=
  u.hasKey "screens" &&
    (u.getList "screens").all (fun scr => (scr.getList "blocks").all blockValid) &&
    (u.getList "knowledge_check").all blockValid

def sectionValid (s : Json) : Bool :=
  s.hasKey "scos" && (s.getList "scos").all scoValid

def moduleValid (m : Json) : Bool :=
  m.hasKey "title" && m.hasKey "sections" &&
    (m.getList "sections").all sectionValid

/-- Structural validity of a course document. -/
def courseValid (doc : Json) : Bool :=
  (match doc with | .obj _ => true | _ => false) &&
    doc.hasKey "title" && doc.hasKey "modules" &&
    (doc.getList "modules").all moduleValid

theorem mcqDefects_nil_iff (opts : List Json) :
    mcqDefects opts = [] ↔ (2 ≤ opts.length ∧ countCorrect opts = 1) := by
  rw [mcqDefects, List.append_eq_nil]
  constructor
  · intro ⟨h1, h2⟩
    constructor
    · by_contra hlt
      simp only [Nat.not_le] at hlt
      simp [hlt] at h1
    · by_contra hne
      simp [hne] at h2
  · intro ⟨h1, h2⟩
    constructor
    · simp [Nat.not_lt.mpr h1]
    · simp [h2]

theorem blockDefects_nil_iff (b : Json) :
    blockDefects b = [] ↔ blockValid b = true := by
  cases hty : b.getKey? "type" with
  | none => simp [blockDefects, blockValid, hty]
  | some v =>
    cases v with
    | str t =>
      simp only [blockDefects, blockValid, hty]
      by_cases h1 : t = "text"
      · rw [if_pos h1, if_pos h1]; simp
      rw [if_neg h1, if_neg h1]
      by_cases h2 : t = "mcq"
      · rw [if_pos h2, if_pos h2, mcqDefects_nil_iff]; simp
      rw [if_neg h2, if_neg h2]
      by_cases h3 : t = "truefalse"
      · rw [if_pos h3, if_pos h3]
        by_cases hc : b.hasKey "correct_answer" = true
        · rw [if_pos hc]; simp [hc]
        · rw [if_neg hc]; simp [Bool.eq_false_iff.mpr hc]
      rw [if_neg h3, if_neg h3]
      by_cases h4 : t = "fillin"
      · rw [if_pos h4, if_pos h4]
        by_cases hc : b.hasKey "correct_answer" = true
        · rw [if_pos hc]; simp [hc]
        · rw [if_neg hc]; simp [Bool.eq_false_iff.mpr hc]
      rw [if_neg h4, if_neg h4]
      by_cases h5 : t = "matching"
      · rw [if_pos h5, if_pos h5]
        by_cases hl : (b.getList "pairs").length < 2
        · rw [if_pos hl]
          simp only [decide_eq_true_eq]
          constructor
          · intro hx; exact absurd hx (by simp)
          · intro hx; omega
        · rw [if_neg hl]
          simp only [decide_eq_true_eq]
          constructor
          · intro _; omega
          · intro _; trivial
      rw [if_neg h5, if_neg h5]
      by_cases h6 : t = "ordering"
      · rw [if_pos h6, if_pos h6]
        by_cases hl : (b.getList "items").length < 2
        · rw [if_pos hl]
          simp only [decide_eq_true_eq]
          constructor
          · intro hx; exact absurd hx (by simp)
          · intro hx; omega
        · rw [if_neg hl]
          simp only [decide_eq_true_eq]
          constructor
          · intro _; omega
          · intro _; trivial
      rw [if_neg h6, if_neg h6]
      simp
    | null => simp [blockDefects, blockValid, hty]
    | bool c => simp [blockDefects, blockValid, hty]
    | num n => simp [blockDefects, blockValid, hty]
    | arr l => simp [blockDefects, blockValid, hty]
    | obj fs => simp [blockDefects, blockValid, hty]

theorem scoDefects_nil_iff (u : Json) :
    scoDefects u = [] ↔ scoValid u = true := by
  rw [scoDefects, scoValid]
  simp only [List.append_eq_nil, List.flatMap_eq_nil_iff, Bool.and_eq_true,
    List.all_eq_true]
  constructor
  · rintro ⟨⟨hs, hscr⟩, hkc⟩
    refine ⟨⟨?_, ?_⟩, ?_⟩
    · by_cases hk : u.hasKey "screens" = true
      · exact hk
      · rw [if_neg hk] at hs; simp at hs
    · intro scr hs2 blk hblk
      exact (blockDefects_nil_iff blk).mp (hscr scr hs2 blk hblk)
    · intro blk hblk
      exact (blockDefects_nil_iff blk).mp (hkc blk hblk)
  · rintro ⟨⟨hs, hscr⟩, hkc⟩
    refine ⟨⟨by simp [hs], ?_⟩, ?_⟩
    · intro scr hs2 blk hblk
      exact (blockDefects_nil_iff blk).mpr (hscr scr hs2 blk hblk)
    · intro blk hblk
      exact (blockDefects_nil_iff blk).mpr (hkc blk hblk)

theorem sectionDefects_nil_iff (s : Json) :
    sectionDefects s = [] ↔ sectionValid s = true := by
  rw [sectionDefects, sectionValid]
  simp only [List.append_eq_nil, List.flatMap_eq_nil_iff, Bool.and_eq_true,
    List.all_eq_true]
  constructor
  · rintro ⟨hs, hrec⟩
    refine ⟨?_, ?_⟩
    · by_cases hk : s.hasKey "scos" = true
      · exact hk
      · rw [if_neg hk] at hs; simp at hs
    · intro uu hu
      exact (scoDefects_nil_iff uu).mp (hrec uu hu)
  · rintro ⟨hs, hrec⟩
    refine ⟨by simp [hs], ?_⟩
    intro uu hu
    exact (scoDefects_nil_iff uu).mpr (hrec uu hu)

theorem moduleDefects_nil_iff (m : Json) :
    moduleDefects m = [] ↔ moduleValid m = true := by
  rw [moduleDefects, moduleValid]
  simp only [List.append_eq_nil, List.flatMap_eq_nil_iff, Bool.and_eq_true,
    List.all_eq_true]
  constructor
  · rintro ⟨⟨ht, hs⟩, hrec⟩
    refine ⟨⟨?_, ?_⟩, ?_⟩
    · by_cases hk : m.hasKey "title" = true
      · exact hk
      · rw [if_neg hk] at ht; simp at ht
    · by_cases hk : m.hasKey "sections" = true
      · exact hk
      · rw [if_neg hk] at hs; simp at hs
    · intro sec hsec
      exact (sectionDefects_nil_iff sec).mp (hrec sec hsec)
  · rintro ⟨⟨ht, hs⟩, hrec⟩
    refine ⟨⟨by simp [ht], by simp [hs]⟩, ?_⟩
    intro sec hsec
    exact (sectionDefects_nil_iff sec).mpr (hrec sec hsec)

/-- C3: the structural validator is a total function from arbitrary JSON
input to a list of string defects — it cannot raise and does not touch its
input — and the defect list is empty exactly when the document is
structurally valid. -/
theorem C3_validator_pure_total (doc : Json) :
    validate_course_json doc = [] ↔ courseValid doc = true := by
  cases doc with
  | obj fields =>
    rw [validate_course_json, courseValid]
    by_cases hm : (Json.obj fields).hasKey "modules" = true
    · rw [if_pos hm]
      simp only [hm, Bool.true_and, Bool.and_eq_true, List.append_eq_nil,
        List.flatMap_eq_nil_iff, List.all_eq_true, and_true]
      by_cases ht : (Json.obj fields).hasKey "title" = true
      · rw [if_pos ht]
        simp only [ht, Bool.true_and, true_and]
        constructor
        · intro hrec m hmem
          exact (moduleDefects_nil_iff m).mp (hrec m hmem)
        · intro hrec m hmem
          exact (moduleDefects_nil_iff m).mpr (hrec m hmem)
      · rw [if_neg ht]
        simp [Bool.eq_false_iff.mpr ht]
    · rw [if_neg hm]
      constructor
      · intro hx
        rw [List.append_eq_nil] at hx
        exact absurd hx.2 (by simp)
      · intro hx
        rw [Bool.eq_false_iff.mpr hm] at hx
        simp at hx
  | null => simp [validate_course_json, courseValid]
  | bool b => simp [validate_course_json, courseValid]
  | num n => simp [validate_course_json, courseValid]
  | str s => simp [validate_course_json, courseValid]
  | arr l => simp [validate_course_json, courseValid]

/-- C4: for an mcq-typed block validation applies exactly the two mcq
rules: with at least 2 options and exactly one marked correct there is no
mcq defect; a correct-count violation yields exactly one defect naming it;
fewer than 2 options yields the distinct at-least-2-options defect. -/
theorem C4_mcq_validation (b : Json) (opts : List Json)
    (hty : b.getKey? "type" = some (.str "mcq")) :
    blockDefects b = mcqDefects (b.getList "options")
    ∧ (2 ≤ opts.length → countCorrect opts = 1 → mcqDefects opts = [])
    ∧ (countCorrect opts ≠ 1 →
        (mcqDefects opts).count "mcq needs exactly 1 correct option" = 1)
    ∧ (countCorrect opts = 1 →
        (mcqDefects opts).count "mcq needs exactly 1 correct option" = 0)
    ∧ (opts.length < 2 →
        "mcq needs at least 2 options" ∈ mcqDefects opts)
    ∧ ("mcq needs at least 2 options" ≠ "mcq needs exactly 1 correct option") := by
  refine ⟨?_, ?_, ?_, ?_, ?_, by decide⟩
  · rw [blockDefects, hty]
    simp
  · intro h1 h2
    rw [mcqDefects_nil_iff]
    exact ⟨h1, h2⟩
  · intro hne
    by_cases hl : opts.length < 2
    · rw [mcqDefects, List.count_append, if_pos hl, if_pos hne]; decide
    · rw [mcqDefects, List.count_append, if_neg hl, if_pos hne]; decide
  · intro heq
    by_cases hl : opts.length < 2
    · rw [mcqDefects, List.count_append, if_pos hl,
        if_neg (show ¬ countCorrect opts ≠ 1 from fun hc => hc heq)]
      decide
    · rw [mcqDefects, List.count_append, if_neg hl,
        if_neg (show ¬ countCorrect opts ≠ 1 from fun hc => hc heq)]
      decide
  · intro hlt
    rw [mcqDefects, if_pos hlt]
    simp

/-- A correct two-option mcq block used in the C4 witness. -/
def okMcqBlock : Json :=
  .obj [("type", .str "mcq"), ("title", .str "Q"), ("body", .str "?"),
    ("options", .arr
      [.obj [("text", .str "A"), ("correct", .bool true)],
       .obj [("text", .str "B"), ("correct", .bool false)]])]

/-- Witness for C4: a well-formed mcq block validates clean; two correct
options among two yield exactly one correct-count defect; a single option
trips the distinct at-least-2 defect. -/
theorem C4_mcq_validation_witness :
    blockDefects okMcqBlock = []
    ∧ (mcqDefects
        [.obj [("correct", Json.bool true)], .obj [("correct", Json.bool true)]]).count
          "mcq needs exactly 1 correct option" = 1
    ∧ "mcq needs at least 2 options" ∈ mcqDefects [Json.obj [("correct", Json.bool true)]] := by
  have h1 := C4_mcq_validation okMcqBlock
    [Json.obj [("correct", Json.bool true)], Json.obj [("correct", Json.bool true)]] rfl
  have h2 := C4_mcq_validation okMcqBlock
    [Json.obj [("correct", Json.bool true)]] rfl
  have h3 := C4_mcq_validation okMcqBlock (okMcqBlock.getList "options") rfl
  refine ⟨?_, ?_, ?_⟩
  · rw [h3.1]
    exact h3.2.1 (by decide) (by decide)
  · exact h1.2.2.1 (by decide)
  · exact h2.2.2.2.2.1 (by decide)

/-! ### The compatibility normalizer

Modelled from the spec: the legacy flat page-list to hierarchical
module/section/unit migration is not among the provided sources; the
definitions follow the Compatibility Normalizer section of the design
document: detect a pages sequence with no modules, regroup each page into
one unit inside one module with one section, text blocks into the single
introductory screen and the rest into the knowledge check, remove pages
and give an empty final test. -/

structure NScreen where
  title : Option String
  blocks : List Json

structure NUnit where
  title : Option String
  screens : List NScreen
  knowledge_check : List Json

structure NSection where
  title : Option String
  scos : List NUnit

structure NModule where
  title : Option String
  sections : List NSection

structure NPage where
  title : Option String
  blocks : List Json

/-- A course document as the normalizer sees it: both shapes expressible. -/
structure NDoc where
  title : Option String
  description : Option String
  language : Option String
  pages : Option (List NPage)
  modules : Option (List NModule)
  final_test : Option (List Json)

/-- Whether a block is a text block. -/
def isTextBlock (b : Json) : Bool :=
  match b.getKey? "type" with
  | some (.str "text") => true
  | _ => false

/-- Modelled from the spec: one legacy page becomes one unit whose single
introductory screen holds the text blocks and whose knowledge check holds
every other block. -/
def pageToUnit (p : NPage) : NUnit :=
  { title := p.title,
    screens := [⟨none, p.blocks.filter isTextBlock⟩],
    knowledge_check := p.blocks.filter (fun b => !isTextBlock b) }

/-- Modelled from the spec: detect the legacy shape (a pages sequence with
no modules) and regroup into exactly one module with exactly one section;
remove pages and set final_test empty.  Any other document is untouched. -/
def normalize (d : NDoc) : NDoc :=
  match d.pages, d.modules with
  | some ps, none =>
    { d with
        pages := none
        modules := some [⟨none, [⟨none, ps.map pageToUnit⟩]⟩]
        final_test := some [] }
  | _, _ => d

/-- C8: the compatibility normalization is idempotent — normalizing twice
equals normalizing once, for legacy-shaped input and every other document
alike, since the first pass removes the pages field the legacy detection
keys on. -/
theorem C8_normalize_idempotent (d : NDoc) :
    normalize (normalize d) = normalize d := by
  cases hp : d.pages with
  | some ps =>
    cases hm : d.modules with
    | none =>
      have h1 : normalize d =
          { d with
              pages := none
              modules := some [⟨none, [⟨none, ps.map pageToUnit⟩]⟩]
              final_test := some [] } := by
        simp only [normalize, hp, hm]
      rw [h1]
      rfl
    | some ms =>
      have h1 : normalize d = d := by simp only [normalize, hp, hm]
      rw [h1, h1]
  | none =>
    have h1 : normalize d = d := by
      cases hm : d.modules with
      | none => simp only [normalize, hp, hm]
      | some ms => simp only [normalize, hp, hm]
    rw [h1, h1]

/-- A sample course used to instantiate theorems with hypotheses. -/
def sampleCourse : CCourse :=
  { title := some "Тест", language := some "ru",
    settings := some ⟨some 80⟩,
    modules := [⟨some "M1", [⟨some "S1", [⟨some "U1", [], []⟩]⟩]⟩],
    final_test := [Json.obj [("type", Json.str "truefalse")]] }

/-- A sample renderer standing in for the external template engine. -/
def sampleRender : RenderFn := fun _ _ filename => "<html>" ++ filename ++ "</html>"

/-- Witness for C2 at a concrete course: the resource hrefs coincide with
the archive content files, and a referenced static asset is an archive
member. -/
theorem C2_manifest_archive_roundtrip_witness :
    resourceHrefs (build sampleRender "css" "js" sampleCourse).manifestTree =
        contentFilenames (build sampleRender "css" "js" sampleCourse)
    ∧ "style.css" ∈ (build sampleRender "css" "js" sampleCourse).files.map Prod.fst := by
  refine ⟨(C2_manifest_archive_roundtrip sampleRender "css" "js" sampleCourse).1, ?_⟩
  refine (C2_manifest_archive_roundtrip sampleRender "css" "js" sampleCourse).2.1
    "style.css" ?_
  rw [build_manifestTree_eq, fileHrefs_manifest]
  decide

/-- C7: manifest compilation is deterministic — equal course, tree and
resource inputs give byte-identical manifest text. -/
theorem C7_manifest_deterministic (course1 course2 : CCourse)
    (tree1 tree2 : List OrgEntry) (res1 res2 : List ResEntry)
    (hc : course1 = course2) (ht : tree1 = tree2) (hr : res1 = res2) :
    manifestText course1 tree1 res1 = manifestText course2 tree2 res2 := by
  rw [hc, ht, hr]

/-- Witness for C7 at a concrete course: two compiles of the same input
agree byte for byte. -/
theorem C7_manifest_deterministic_witness :
    manifestText sampleCourse (build sampleRender "css" "js" sampleCourse).orgTree
        (build sampleRender "css" "js" sampleCourse).resources =
      manifestText sampleCourse (build sampleRender "css" "js" sampleCourse).orgTree
        (build sampleRender "css" "js" sampleCourse).resources :=
  C7_manifest_deterministic sampleCourse sampleCourse
    (build sampleRender "css" "js" sampleCourse).orgTree
    (build sampleRender "css" "js" sampleCourse).orgTree
    (build sampleRender "css" "js" sampleCourse).resources
    (build sampleRender "css" "js" sampleCourse).resources rfl rfl rfl

end LlmScorm
